import Mathlib

/-!
Verification of the raffle engine of `koishi-plugin-luckydraw`.

The development shallowly embeds the raffle activity store, the prize
allocator (`drawWinners` in `src/raffle/handler.ts`), the scheduler
(`src/raffle/timer.ts`) and the command layer (`raffle.create`,
`raffle.join`, `raffle.cancel` and the keyword message listener) as pure
Lean functions over an explicit state.  `Math.random()` picks are embedded
as a consumed list of natural-number seeds, each pick using `seed % len`
exactly as `Math.floor(Math.random() * len)` selects a uniform index.
Database rows become lists of records; `database.get {id}` becomes
`List.find?`, `database.set {id} {status}` becomes a `List.map` that
rewrites the matching rows.
-/

namespace LuckyDraw

/-- Lifecycle states of a raffle activity, from the `status` column of
`raffle_activity` (`'pending' | 'active' | 'drawn' | 'cancelled'`). -/
inductive RaffleStatus
  | pending
  | active
  | drawn
  | cancelled
deriving DecidableEq

/-- Row of the `raffle_activity` table. -/
structure RaffleActivity where
  id : String
  name : String
  guildId : String
  drawTime : Nat
  status : RaffleStatus
  createdBy : String
  createdAt : Nat
  keyword : Option String
deriving DecidableEq

/-- Row of the `raffle_prize` table. -/
structure RafflePrize where
  activityId : String
  name : String
  description : String
  count : Nat
deriving DecidableEq

/-- Row of the `raffle_participant` table. -/
structure RaffleParticipant where
  activityId : String
  userId : String
  username : String
  joinedAt : Nat
deriving DecidableEq

/-- Row of the `raffle_winner` table. -/
structure RaffleWinner where
  activityId : String
  userId : String
  username : String
  prizeName : String
  wonAt : Nat
deriving DecidableEq

/-- The durable store: the four raffle tables. -/
structure RaffleState where
  activities : List RaffleActivity
  prizes : List RafflePrize
  participants : List RaffleParticipant
  winners : List RaffleWinner
deriving DecidableEq

/-- RaffleHandler.getActivity: fetch an activity together with its prize
rows and participant rows. -/
def getActivity (st : RaffleState) (activityId : String) :
    Option (RaffleActivity × List RafflePrize × List RaffleParticipant) :=
  match st.activities.find? (fun a => a.id == activityId) with
  | none => none
  | some act =>
      some (act, st.prizes.filter (fun p => p.activityId == activityId),
            st.participants.filter (fun p => p.activityId == activityId))

/-- RaffleHandler.updateActivityStatus: `database.set('raffle_activity',
{id}, {status})` rewrites the status of every row whose id matches. -/
def updateActivityStatus (st : RaffleState) (activityId : String)
    (status : RaffleStatus) : RaffleState :=
  { st with activities :=
      st.activities.map (fun a =>
        if a.id == activityId then { a with status := status } else a) }

/-- RaffleHandler.cancelActivity. -/
def cancelActivity (st : RaffleState) (activityId : String) : RaffleState :=
  updateActivityStatus st activityId RaffleStatus.cancelled

/-- RaffleHandler.hasUserJoined. -/
def hasUserJoined (st : RaffleState) (activityId userId : String) : Bool :=
  (st.participants.filter
    (fun p => p.activityId == activityId && p.userId == userId)).length > 0

/-- RaffleHandler.addParticipant: returns false without writing when the
(activity, user) pair is already present, otherwise appends the row. -/
def addParticipant (st : RaffleState) (activityId userId username : String)
    (now : Nat) : Bool × RaffleState :=
  if (st.participants.filter
      (fun p => p.activityId == activityId && p.userId == userId)).length > 0 then
    (false, st)
  else
    (true, { st with participants :=
      st.participants ++ [⟨activityId, userId, username, now⟩] })

/-- Inner loop of RaffleHandler.drawWinners for one prize line: draw up to
`count` winners, each time splicing a random index out of the remaining
participant pool.  Returns the records created, the remaining pool and the
unconsumed randomness. -/
def assignPrize (activityId : String) (now : Nat) (prizeName : String) :
    Nat → List RaffleParticipant → List Nat →
    List RaffleWinner × List RaffleParticipant × List Nat
  | 0, avail, seed => ([], avail, seed)
  | k + 1, avail, seed =>
      if h : 0 < avail.length then
        let i : Fin avail.length := ⟨seed.headD 0 % avail.length, Nat.mod_lt _ h⟩
        let p := avail.get i
        let rec0 := assignPrize activityId now prizeName k (avail.eraseIdx i.1) seed.tail
        (⟨activityId, p.userId, p.username, prizeName, now⟩ :: rec0.1, rec0.2)
      else ([], avail, seed)

/-- Outer loop of RaffleHandler.drawWinners: consume the prize lines in
stored order. -/
def allocWinners (activityId : String) (now : Nat) :
    List RafflePrize → List RaffleParticipant → List Nat →
    List RaffleWinner × List RaffleParticipant × List Nat
  | [], avail, seed => ([], avail, seed)
  | pr :: rest, avail, seed =>
      let step1 := assignPrize activityId now pr.name pr.count avail seed
      let step2 := allocWinners activityId now rest step1.2.1 step1.2.2
      (step1.1 ++ step2.1, step2.2)

/-- Sum of the declared counts of a list of prize lines. -/
def sumCounts (prizes : List RafflePrize) : Nat :=
  (prizes.map (fun p => p.count)).sum

/-- RaffleHandler.drawWinners: fetch the activity, refuse unless its status
is `active`, run the allocator, persist the winner rows and set the status
to `drawn`.  The source throws before any winner row is created when the
guard fails, so the error branches leave the store untouched. -/
def drawWinners (st : RaffleState) (activityId : String) (now : Nat)
    (seed : List Nat) : Except String (List RaffleWinner × RaffleState) :=
  match getActivity st activityId with
  | none => .error "活动不存在"
  | some (act, prizes, participants) =>
      if act.status = RaffleStatus.active then
        let ws := (allocWinners activityId now prizes participants seed).1
        .ok (ws, updateActivityStatus
          { st with winners := st.winners ++ ws } activityId RaffleStatus.drawn)
      else .error "活动状态不正确"

/-- Status of the first stored activity row with the given id, as read by
`database.get('raffle_activity', {id})`. -/
def dbStatus (st : RaffleState) (activityId : String) : Option RaffleStatus :=
  (st.activities.find? (fun a => a.id == activityId)).map (fun a => a.status)

/-- In-memory process state: the store, the scheduler's timer map
(activity id paired with the deadline its timeout was armed for), the
current clock, and a ghost log recording each completed allocator run. -/
structure SysState where
  db : RaffleState
  timers : List (String × Nat)
  now : Nat
  drawLog : List String
deriving DecidableEq

/-- RaffleTimerManager.cancelTimer: clearTimeout plus removal of the map
entry for the id; a no-op when none exists. -/
def cancelTimer (s : SysState) (activityId : String) : SysState :=
  { s with timers := s.timers.filter (fun t => t.1 ≠ activityId) }

/-- RaffleTimerManager.performRaffleDraw.  The whole body is wrapped in a
try/catch, so the caller never observes an error: the second component is
the error surfaced to the caller, which is always `none`.  A missing or
non-`active` activity is logged and silently returned.  `failPersist`
injects a persistence failure inside the drawWinners step: the catch
handler then still forces the status to `drawn`
(`updateActivityStatus(activityId, 'drawn')`), mirroring lines 48–57 of
`timer.ts`.  The ghost `drawLog` records the id exactly when the allocator
completed normally. -/
def performRaffleDraw (s : SysState) (activityId : String) (failPersist : Bool)
    (seed : List Nat) : SysState × Option String :=
  match getActivity s.db activityId with
  | none => (s, none)
  | some (act, _, _) =>
      if act.status = RaffleStatus.active then
        if failPersist then
          ({ s with db := updateActivityStatus s.db activityId RaffleStatus.drawn },
           none)
        else
          match drawWinners s.db activityId s.now seed with
          | .ok (_, db') =>
              ({ s with db := db', drawLog := s.drawLog ++ [activityId] }, none)
          | .error _ =>
              ({ s with db := updateActivityStatus s.db activityId RaffleStatus.drawn },
               none)
      else (s, none)

/-- A timer firing: the timeout callback runs `performRaffleDraw` and then
deletes its own map entry. -/
def fireTimer (s : SysState) (activityId : String) (failPersist : Bool)
    (seed : List Nat) : SysState :=
  let s1 := (performRaffleDraw s activityId failPersist seed).1
  { s1 with timers := s1.timers.filter (fun t => t.1 ≠ activityId) }

/-- RaffleTimerManager.scheduleRaffleDraw: when the deadline is not in the
future (`delay <= 0`) the draw is performed immediately and no timer is
created; otherwise any existing timer for the id is cancelled before the
new one is set. -/
def scheduleRaffleDraw (s : SysState) (activityId : String) (drawTime : Nat)
    (seed : List Nat) : SysState :=
  if drawTime ≤ s.now then (performRaffleDraw s activityId false seed).1
  else
    let s1 := cancelTimer s activityId
    { s1 with timers := s1.timers ++ [(activityId, drawTime)] }

/-- One iteration of the startup recovery loop: a still-future activity is
re-armed, an overdue one is drawn immediately. -/
def initTimersStep (seeds : String → List Nat) (s : SysState)
    (a : RaffleActivity) : SysState :=
  if s.now < a.drawTime then scheduleRaffleDraw s a.id a.drawTime (seeds a.id)
  else (performRaffleDraw s a.id false (seeds a.id)).1

/-- RaffleTimerManager.initializeRaffleTimers: clear all timers, snapshot
the `active` activities from the store, then re-arm or immediately draw
each of them.  `seeds` supplies the randomness an immediate draw would
consume. -/
def initRaffleTimers (s : SysState) (seeds : String → List Nat) : SysState :=
  let s0 : SysState := { s with timers := [] }
  (s.db.activities.filter (fun a => a.status == RaffleStatus.active)).foldl
    (initTimersStep seeds) s0

/-- One parsed line of the interactive prize input of `raffle.create`
(name, description, parsed count; `parseInt` may produce a non-positive
value, hence `Int`). -/
structure PrizeInput where
  name : String
  description : String
  count : Int
deriving DecidableEq

/-- The `raffle.create` action after the interactive prompts: validate the
prize counts, the non-empty prize list and the strictly-future deadline in
source order; only when all checks pass is the activity persisted (with
status `active`) and its draw scheduled.  The second component is the
validation error sent back, `none` on success. -/
def raffleCreate (s : SysState) (activityId name guildId createdBy : String)
    (drawTime : Nat) (prizesIn : List PrizeInput) (keyword : Option String)
    (seed : List Nat) : SysState × Option String :=
  if prizesIn.any (fun p => p.count ≤ 0) then (s, some "数量必须为正整数")
  else if prizesIn.isEmpty then (s, some "至少需要添加一个奖品")
  else if drawTime ≤ s.now then (s, some "开奖时间必须晚于当前时间")
  else
    let act : RaffleActivity :=
      ⟨activityId, name, guildId, drawTime, RaffleStatus.active, createdBy,
       s.now, keyword⟩
    let prizeRows := prizesIn.map
      (fun p => RafflePrize.mk activityId p.name p.description p.count.toNat)
    let s1 : SysState :=
      { s with db := { s.db with
          activities := s.db.activities ++ [act],
          prizes := s.db.prizes ++ prizeRows } }
    (scheduleRaffleDraw s1 activityId drawTime seed, none)

/-- The `raffle.join` command action: state guard, guild guard,
already-joined guard, then append the participant.  The second component
is the message sent back to the caller. -/
def raffleJoin (s : SysState) (activityId userId username guildId : String) :
    SysState × Option String :=
  match getActivity s.db activityId with
  | none => (s, some "找不到抽奖活动")
  | some (act, _, _) =>
      if act.status = RaffleStatus.active then
        if act.guildId ≠ "" ∧ act.guildId ≠ guildId then
          (s, some "该抽奖活动不属于本群")
        else if hasUserJoined s.db activityId userId then
          (s, some "你已经参与过该抽奖活动了")
        else
          let upd := addParticipant s.db activityId userId username s.now
          ({ s with db := upd.2 }, some "参与成功")
      else
        (s, some (if act.status = RaffleStatus.drawn
                  then "该抽奖活动已结束" else "该抽奖活动已取消"))

/-- The `raffle.cancel` command action: refuses unless the activity is
`active`, otherwise cancels the timer and sets the status to `cancelled`. -/
def raffleCancel (s : SysState) (activityId : String) : SysState × Option String :=
  match getActivity s.db activityId with
  | none => (s, some "找不到抽奖活动")
  | some (act, _, _) =>
      if act.status = RaffleStatus.active then
        let s1 := cancelTimer s activityId
        ({ s1 with db := cancelActivity s1.db activityId }, some "已取消")
      else
        (s, some (if act.status = RaffleStatus.drawn
                  then "该抽奖活动已开奖，无法取消" else "该抽奖活动已取消，无法取消"))

/-- The keyword message listener of `index.ts`: among the guild's `active`
activities, the first whose keyword equals the message joins the sender —
silently doing nothing when the sender already joined (`return // 静默处理`).
The second component is the confirmation message, `none` when nothing is
said. -/
def keywordJoin (s : SysState) (guildId userId username content : String) :
    SysState × Option String :=
  match (s.db.activities.filter
      (fun a => a.guildId == guildId && a.status == RaffleStatus.active)).find?
      (fun a => a.keyword == some content) with
  | none => (s, none)
  | some act =>
      if hasUserJoined s.db act.id userId then (s, none)
      else
        let upd := addParticipant s.db act.id userId username s.now
        if upd.1 then ({ s with db := upd.2 }, some "参与成功")
        else ({ s with db := upd.2 }, none)

/-- Number of completed allocator runs recorded for an activity. -/
def drawCount (s : SysState) (activityId : String) : Nat :=
  s.drawLog.count activityId

/-- All operations the running system performs on the raffle state:
creation (with a fresh id, as produced by the collision-resistant
`generateActivityId`), the two join paths, cancellation, a timer firing at
or after its deadline (optionally with an injected persistence failure),
a process restart re-running `initializeRaffleTimers`, and the clock
advancing. -/
inductive Step : SysState → SysState → Prop
  | create (s : SysState) (activityId name guildId createdBy : String)
      (drawTime : Nat) (prizesIn : List PrizeInput) (keyword : Option String)
      (seed : List Nat)
      (hfresh : ∀ a ∈ s.db.activities, a.id ≠ activityId) :
      Step s (raffleCreate s activityId name guildId createdBy drawTime
               prizesIn keyword seed).1
  | join (s : SysState) (activityId userId username guildId : String) :
      Step s (raffleJoin s activityId userId username guildId).1
  | kwJoin (s : SysState) (guildId userId username content : String) :
      Step s (keywordJoin s guildId userId username content).1
  | cancel (s : SysState) (activityId : String) :
      Step s (raffleCancel s activityId).1
  | fire (s : SysState) (activityId : String) (d : Nat) (failPersist : Bool)
      (seed : List Nat) (hmem : (activityId, d) ∈ s.timers) (hd : d ≤ s.now) :
      Step s (fireTimer s activityId failPersist seed)
  | restart (s : SysState) (seeds : String → List Nat) :
      Step s (initRaffleTimers s seeds)
  | tick (s : SysState) (t : Nat) (h : s.now ≤ t) :
      Step s { s with now := t }

/-- The empty initial system state. -/
def initSys : SysState := ⟨⟨[], [], [], []⟩, [], 0, []⟩

/-- States reachable from the empty initial state. -/
inductive Reachable : SysState → Prop
  | init : Reachable initSys
  | step {s s' : SysState} : Reachable s → Step s s' → Reachable s'

/-- Ids of the stored activity rows. -/
def activityIds (st : RaffleState) : List String :=
  st.activities.map (fun a => a.id)

/-- Scheduler invariant: activity ids are unique (creation uses the
collision-resistant `generateActivityId` and validation happens before
persisting), every `active` activity has a timer armed for its deadline,
and the ghost draw log records at most one completed allocator run per
activity, and only for activities now in the `drawn` state. -/
def SysInv (s : SysState) : Prop :=
  (activityIds s.db).Nodup ∧
  (∀ a ∈ s.db.activities, a.status = RaffleStatus.active →
    (a.id, a.drawTime) ∈ s.timers) ∧
  (∀ activityId : String, drawCount s activityId ≤ 1 ∧
    (drawCount s activityId = 1 →
      dbStatus s.db activityId = some RaffleStatus.drawn))

/-- Flat selection process underlying the allocator: make `m` picks, each
removing a uniformly random element of the remaining pool.  The prize loop
of `drawWinners` performs exactly this on the participant pool, the prize
structure only determining the labels on the records. -/
def selectWinners {α : Type} : List α → Nat → List Nat → List α
  | _, 0, _ => []
  | avail, m + 1, seed =>
      if h : 0 < avail.length then
        let i : Fin avail.length := ⟨seed.headD 0 % avail.length, Nat.mod_lt _ h⟩
        avail.get i :: selectWinners (avail.eraseIdx i.1) m seed.tail
      else []

/-- The winner record `drawWinners` builds for a drawn participant. -/
def winnerRecord (activityId : String) (now : Nat) (prizeName : String)
    (p : RaffleParticipant) : RaffleWinner :=
  ⟨activityId, p.userId, p.username, prizeName, now⟩

/-- Pool and unconsumed randomness left after `m` picks of the flat
selection process; matches the last two components of `assignPrize`. -/
def selectRest {α : Type} : List α → Nat → List Nat → List α × List Nat
  | avail, 0, seed => (avail, seed)
  | avail, m + 1, seed =>
      if h : 0 < avail.length then
        selectRest (avail.eraseIdx (seed.headD 0 % avail.length)) m seed.tail
      else (avail, seed)

/-- Canonical finite space of randomness for a draw of `m` picks from a
pool of size `n`: the i-th entry ranges over the size of the remaining
pool.  Uniform `Math.random()` makes every element equally likely. -/
def seedSpace : Nat → Nat → Finset (List Nat)
  | _, 0 => {[]}
  | n, m + 1 =>
      if n = 0 then {[]}
      else (Finset.range n).biUnion
        (fun r => (seedSpace (n - 1) m).image (fun s => r :: s))

/-! ### Basic list facts -/

theorem get_cons_eraseIdx_perm {α : Type} (l : List α) (i : Fin l.length) :
    List.Perm (l.get i :: l.eraseIdx i.1) l := by
  induction l with
  | nil => exact absurd i.2 (by simp)
  | cons a tl ih =>
      match i with
      | ⟨0, _⟩ => simp [List.eraseIdx]
      | ⟨j + 1, hj⟩ =>
          have hj' : j < tl.length := by simpa using hj
          have h1 : List.Perm (tl.get ⟨j, hj'⟩ :: a :: tl.eraseIdx j)
              (a :: tl.get ⟨j, hj'⟩ :: tl.eraseIdx j) := List.Perm.swap _ _ _
          have h2 : List.Perm (a :: tl.get ⟨j, hj'⟩ :: tl.eraseIdx j) (a :: tl) :=
            (ih ⟨j, hj'⟩).cons a
          simpa [List.eraseIdx] using h1.trans h2

theorem length_eraseIdx_of_lt {α : Type} (l : List α) (i : Nat)
    (h : i < l.length) : (l.eraseIdx i).length = l.length - 1 := by
  simp [List.length_eraseIdx, h]

/-! ### The allocator: one prize line -/

/-- Characterisation of `assignPrize`: the records produced are exactly the
records of a list `chosen` of participants, `min count poolsize` of them,
and `chosen` together with the leftover pool is a permutation of the
original pool. -/
theorem assignPrize_spec (activityId : String) (now : Nat) (prizeName : String) :
    ∀ (k : Nat) (avail : List RaffleParticipant) (seed : List Nat),
    ∃ chosen : List RaffleParticipant,
      (assignPrize activityId now prizeName k avail seed).1 =
        chosen.map (winnerRecord activityId now prizeName) ∧
      chosen.length = min k avail.length ∧
      List.Perm (chosen ++ (assignPrize activityId now prizeName k avail seed).2.1)
        avail := by
  intro k
  induction k with
  | zero =>
      intro avail seed
      exact ⟨[], by simp [assignPrize], by simp [assignPrize], by simp [assignPrize]⟩
  | succ k ih =>
      intro avail seed
      by_cases h : 0 < avail.length
      · set i : Fin avail.length := ⟨seed.headD 0 % avail.length, Nat.mod_lt _ h⟩ with hi
        obtain ⟨chosen, hmap, hlen, hperm⟩ := ih (avail.eraseIdx i.1) seed.tail
        refine ⟨avail.get i :: chosen, ?_, ?_, ?_⟩
        · simp only [assignPrize, dif_pos h, List.map_cons]
          exact congrArg _ hmap
        · have := length_eraseIdx_of_lt avail i.1 i.2
          simp only [List.length_cons, hlen, this]
          omega
        · simp only [assignPrize, dif_pos h, List.cons_append]
          exact ((hperm).cons (avail.get i)).trans (get_cons_eraseIdx_perm avail i)
      · refine ⟨[], ?_, ?_, ?_⟩
        · simp [assignPrize, h]
        · simp only [List.length_nil]
          omega
        · simp [assignPrize, h]

/-! ### The allocator: the full prize list -/

@[simp]
theorem winnerRecord_userId (activityId : String) (now : Nat)
    (prizeName : String) (p : RaffleParticipant) :
    (winnerRecord activityId now prizeName p).userId = p.userId := rfl

/-- Characterisation of `allocWinners` in terms of per-line chosen
participant segments: the records are exactly the per-line records of the
segments, each segment stays within the line's declared count, and the
chosen participants together with the leftover pool permute the original
pool. -/
theorem allocWinners_spec (activityId : String) (now : Nat) :
    ∀ (prizes : List RafflePrize) (avail : List RaffleParticipant)
      (seed : List Nat),
    ∃ segs : List (List RaffleParticipant),
      (allocWinners activityId now prizes avail seed).1 =
        (List.zipWith (fun seg pr => seg.map (winnerRecord activityId now pr.name))
          segs prizes).join ∧
      List.Forall₂ (fun seg (pr : RafflePrize) => seg.length ≤ pr.count) segs prizes ∧
      List.Perm (segs.join ++ (allocWinners activityId now prizes avail seed).2.1)
        avail ∧
      (allocWinners activityId now prizes avail seed).1.map (fun w => w.userId) =
        segs.join.map (fun p => p.userId) := by
  intro prizes
  induction prizes with
  | nil =>
      intro avail seed
      exact ⟨[], by simp [allocWinners], by simp, by simp [allocWinners], by
        simp [allocWinners]⟩
  | cons pr rest ih =>
      intro avail seed
      obtain ⟨chosen, hmap, hlen, hperm⟩ :=
        assignPrize_spec activityId now pr.name pr.count avail seed
      obtain ⟨segs, ih1, ih2, ih3, ih4⟩ :=
        ih (assignPrize activityId now pr.name pr.count avail seed).2.1
          (assignPrize activityId now pr.name pr.count avail seed).2.2
      refine ⟨chosen :: segs, ?_, ?_, ?_, ?_⟩
      · simp only [allocWinners, List.zipWith_cons_cons, List.join_cons]
        rw [hmap, ih1]
      · exact List.Forall₂.cons (by omega) ih2
      · simp only [allocWinners, List.join_cons, List.append_assoc]
        exact (List.Perm.append_left chosen ih3).trans hperm
      · simp only [allocWinners, List.map_append, List.join_cons]
        rw [hmap, ih4, List.map_map]
        rfl

/-- Number of records produced by the allocator: the minimum of the total
declared prize count and the pool size. -/
theorem allocWinners_length (activityId : String) (now : Nat) :
    ∀ (prizes : List RafflePrize) (avail : List RaffleParticipant)
      (seed : List Nat),
    (allocWinners activityId now prizes avail seed).1.length =
      min (sumCounts prizes) avail.length := by
  intro prizes
  induction prizes with
  | nil => intro avail seed; simp [allocWinners, sumCounts]
  | cons pr rest ih =>
      intro avail seed
      obtain ⟨chosen, hmap, hlen, hperm⟩ :=
        assignPrize_spec activityId now pr.name pr.count avail seed
      have hpool :
          chosen.length +
            (assignPrize activityId now pr.name pr.count avail seed).2.1.length =
          avail.length := by
        have := hperm.length_eq
        simpa using this
      have h1 :
          (assignPrize activityId now pr.name pr.count avail seed).1.length =
            chosen.length := by
        rw [hmap]; simp
      have h2 := ih (assignPrize activityId now pr.name pr.count avail seed).2.1
        (assignPrize activityId now pr.name pr.count avail seed).2.2
      simp only [allocWinners, List.length_append, h1, h2]
      have hsum : sumCounts (pr :: rest) = pr.count + sumCounts rest := by
        simp [sumCounts]
      rw [hsum]
      omega

/-! ### Degenerate pools -/

theorem assignPrize_nil (activityId : String) (now : Nat) (prizeName : String)
    (k : Nat) (seed : List Nat) :
    assignPrize activityId now prizeName k [] seed = ([], [], seed) := by
  cases k with
  | zero => rfl
  | succ k => simp [assignPrize]

theorem allocWinners_nil (activityId : String) (now : Nat) :
    ∀ (prizes : List RafflePrize) (seed : List Nat),
    allocWinners activityId now prizes [] seed = ([], [], seed) := by
  intro prizes
  induction prizes with
  | nil => intro seed; rfl
  | cons pr rest ih =>
      intro seed
      simp [allocWinners, assignPrize_nil, ih]

/-! ### Reading the activity table through updates -/

theorem find?_map_of_pred_comm {α : Type} (f : α → α) (p : α → Bool)
    (hf : ∀ a, p (f a) = p a) (l : List α) :
    (l.map f).find? p = (l.find? p).map f := by
  induction l with
  | nil => rfl
  | cons a tl ih =>
      simp only [List.map_cons, List.find?_cons, hf a]
      cases p a <;> simp [ih]

theorem find?_activities_update (l : List RaffleActivity) (aid tid : String)
    (x : RaffleStatus) :
    (l.map (fun a => if a.id == tid then { a with status := x } else a)).find?
        (fun a => a.id == aid)
      = (l.find? (fun a => a.id == aid)).map
          (fun a => if a.id == tid then { a with status := x } else a) := by
  refine find?_map_of_pred_comm _ _ (fun a => ?_) l
  by_cases h2 : (a.id == tid) = true <;> simp [h2]

theorem dbStatus_update_self (st : RaffleState) (tid : String) (x : RaffleStatus) :
    dbStatus (updateActivityStatus st tid x) tid
      = (dbStatus st tid).map (fun _ => x) := by
  simp only [dbStatus, updateActivityStatus, find?_activities_update]
  cases hf : st.activities.find? (fun a => a.id == tid) with
  | none => rfl
  | some a =>
      have : (a.id == tid) = true :=
        @List.find?_some _ (fun a => a.id == tid) a _ hf
      have h2 : a.id = tid := by simpa using this
      simp [h2]

theorem dbStatus_update_other (st : RaffleState) (tid aid : String)
    (x : RaffleStatus) (h : aid ≠ tid) :
    dbStatus (updateActivityStatus st tid x) aid = dbStatus st aid := by
  simp only [dbStatus, updateActivityStatus, find?_activities_update]
  cases hf : st.activities.find? (fun a => a.id == aid) with
  | none => rfl
  | some a =>
      have ha : (a.id == aid) = true :=
        @List.find?_some _ (fun a => a.id == aid) a _ hf
      have h3 : a.id = aid := by simpa using ha
      have h2 : ¬ a.id = tid := by rw [h3]; exact h
      simp [h2]

theorem getActivity_eq_some (st : RaffleState) (activityId : String)
    (act : RaffleActivity) (ps : List RafflePrize)
    (parts : List RaffleParticipant)
    (h : getActivity st activityId = some (act, ps, parts)) :
    st.activities.find? (fun a => a.id == activityId) = some act ∧
    ps = st.prizes.filter (fun p => p.activityId == activityId) ∧
    parts = st.participants.filter (fun p => p.activityId == activityId) := by
  unfold getActivity at h
  cases hf : st.activities.find? (fun a => a.id == activityId) with
  | none => rw [hf] at h; exact absurd h (by simp)
  | some a =>
      simp only [hf, Option.some_inj, Prod.mk.injEq] at h
      obtain ⟨h1, h2, h3⟩ := h
      exact ⟨by rw [h1], h2.symm, h3.symm⟩

/-! ### Record membership for the allocator -/

theorem allocWinners_mem (activityId : String) (now : Nat) :
    ∀ (prizes : List RafflePrize) (avail : List RaffleParticipant)
      (seed : List Nat) (w : RaffleWinner),
    w ∈ (allocWinners activityId now prizes avail seed).1 →
    w.activityId = activityId ∧ w.wonAt = now ∧
    (∃ pr ∈ prizes, w.prizeName = pr.name) ∧
    (∃ p ∈ avail, w.userId = p.userId ∧ w.username = p.username) := by
  intro prizes
  induction prizes with
  | nil => intro avail seed w hw; simp [allocWinners] at hw
  | cons pr rest ih =>
      intro avail seed w hw
      obtain ⟨chosen, hmap, hlen, hperm⟩ :=
        assignPrize_spec activityId now pr.name pr.count avail seed
      have hsub1 : chosen ⊆ avail := fun p hp =>
        hperm.subset (List.mem_append_left _ hp)
      have hsub2 : (assignPrize activityId now pr.name pr.count avail seed).2.1 ⊆
          avail := fun p hp => hperm.subset (List.mem_append_right _ hp)
      simp only [allocWinners, List.mem_append] at hw
      rcases hw with hw | hw
      · rw [hmap] at hw
        obtain ⟨p, hp, hwp⟩ := List.mem_map.mp hw
        subst hwp
        exact ⟨rfl, rfl, ⟨pr, by simp, rfl⟩, ⟨p, hsub1 hp, rfl, rfl⟩⟩
      · obtain ⟨h1, h2, ⟨pr', hpr', h3⟩, ⟨p, hp, h4⟩⟩ := ih _ _ w hw
        exact ⟨h1, h2, ⟨pr', by simp [hpr'], h3⟩, ⟨p, hsub2 hp, h4⟩⟩

/-! ### Claim theorems: the allocator -/

/-- Claim C1: for every draw by the allocator on prize lines of positive
count and a participant list (whose user ids are distinct, as the registry
enforces), the number of winner records equals
`min (sum of prize counts) (participant count)`, no participant user id
appears in two winner records, and the records split into per-line
segments none of which exceeds its line's declared count. -/
theorem allocation_conservation (activityId : String) (now : Nat)
    (prizes : List RafflePrize) (parts : List RaffleParticipant)
    (seed : List Nat)
    (hpos : ∀ pr ∈ prizes, 0 < pr.count)
    (hnd : (parts.map (fun p => p.userId)).Nodup) :
    (allocWinners activityId now prizes parts seed).1.length
      = min (sumCounts prizes) parts.length ∧
    ((allocWinners activityId now prizes parts seed).1.map
      (fun w => w.userId)).Nodup ∧
    ∃ segs : List (List RaffleParticipant),
      (allocWinners activityId now prizes parts seed).1 =
        (List.zipWith (fun seg pr => seg.map (winnerRecord activityId now pr.name))
          segs prizes).join ∧
      List.Forall₂ (fun seg (pr : RafflePrize) => seg.length ≤ pr.count)
        segs prizes := by
  obtain ⟨segs, h1, h2, h3, h4⟩ := allocWinners_spec activityId now prizes parts seed
  refine ⟨allocWinners_length activityId now prizes parts seed, ?_, segs, h1, h2⟩
  have hperm2 : List.Perm
      ((segs.join ++ (allocWinners activityId now prizes parts seed).2.1).map
        (fun p => p.userId))
      (parts.map (fun p => p.userId)) := h3.map _
  have hnd2 : ((segs.join ++
      (allocWinners activityId now prizes parts seed).2.1).map
        (fun p => p.userId)).Nodup := (hperm2.symm).nodup hnd
  rw [List.map_append] at hnd2
  rw [h4]
  exact hnd2.of_append_left

def exPrizes : List RafflePrize :=
  [⟨"a1", "Gold", "g", 1⟩, ⟨"a1", "Silver", "s", 2⟩]

def exParts : List RaffleParticipant :=
  [⟨"a1", "uA", "A", 0⟩, ⟨"a1", "uB", "B", 0⟩, ⟨"a1", "uC", "C", 0⟩]

theorem allocation_conservation_witness :
    (allocWinners "a1" 9 exPrizes exParts [0, 0, 0]).1.length
      = min (sumCounts exPrizes) exParts.length ∧
    ((allocWinners "a1" 9 exPrizes exParts [0, 0, 0]).1.map
      (fun w => w.userId)).Nodup ∧
    ∃ segs : List (List RaffleParticipant),
      (allocWinners "a1" 9 exPrizes exParts [0, 0, 0]).1 =
        (List.zipWith (fun seg pr => seg.map (winnerRecord "a1" 9 pr.name))
          segs exPrizes).join ∧
      List.Forall₂ (fun seg (pr : RafflePrize) => seg.length ≤ pr.count)
        segs exPrizes :=
  allocation_conservation "a1" 9 exPrizes exParts [0, 0, 0]
    (by decide) (by decide)

/-- Claim C5: drawing an activity that is `active` and has zero
participants succeeds with an empty winner list (no exception), creates no
winner record, and moves the activity to `drawn`. -/
theorem zero_participant_draw (st : RaffleState) (activityId : String)
    (now : Nat) (seed : List Nat) (act : RaffleActivity) (ps : List RafflePrize)
    (hget : getActivity st activityId = some (act, ps, []))
    (hact : act.status = RaffleStatus.active) :
    drawWinners st activityId now seed =
      .ok ([], updateActivityStatus st activityId RaffleStatus.drawn) ∧
    (updateActivityStatus st activityId RaffleStatus.drawn).winners = st.winners ∧
    dbStatus (updateActivityStatus st activityId RaffleStatus.drawn) activityId
      = some RaffleStatus.drawn := by
  have hfind := (getActivity_eq_some st activityId act ps [] hget).1
  refine ⟨?_, by simp [updateActivityStatus], ?_⟩
  · simp [drawWinners, hget, hact, allocWinners_nil]
  · rw [dbStatus_update_self]
    simp [dbStatus, hfind]

def exStZero : RaffleState :=
  ⟨[⟨"a1", "act", "g1", 5, RaffleStatus.active, "admin", 0, none⟩],
   [⟨"a1", "Gold", "g", 1⟩], [], []⟩

theorem zero_participant_draw_witness :
    drawWinners exStZero "a1" 7 [] =
      .ok ([], updateActivityStatus exStZero "a1" RaffleStatus.drawn) ∧
    (updateActivityStatus exStZero "a1" RaffleStatus.drawn).winners =
      exStZero.winners ∧
    dbStatus (updateActivityStatus exStZero "a1" RaffleStatus.drawn) "a1"
      = some RaffleStatus.drawn :=
  zero_participant_draw exStZero "a1" 7 []
    ⟨"a1", "act", "g1", 5, RaffleStatus.active, "admin", 0, none⟩
    [⟨"a1", "Gold", "g", 1⟩] (by decide) (by decide)

/-- Claim C6: re-running `drawWinners` on an activity already in the
terminal `drawn` state is refused with an error; the guard throws before
any winner row is created or any status write happens, so the store is
untouched. -/
theorem redraw_refused (st : RaffleState) (activityId : String) (now : Nat)
    (seed : List Nat) (act : RaffleActivity) (ps : List RafflePrize)
    (parts : List RaffleParticipant)
    (hget : getActivity st activityId = some (act, ps, parts))
    (hst : act.status = RaffleStatus.drawn) :
    drawWinners st activityId now seed = .error "活动状态不正确" := by
  simp [drawWinners, hget, hst]

def exStDrawn : RaffleState :=
  ⟨[⟨"a1", "act", "g1", 5, RaffleStatus.drawn, "admin", 0, none⟩],
   [⟨"a1", "Gold", "g", 1⟩], [⟨"a1", "uA", "A", 1⟩], []⟩

theorem redraw_refused_witness :
    drawWinners exStDrawn "a1" 7 [] = .error "活动状态不正确" :=
  redraw_refused exStDrawn "a1" 7 []
    ⟨"a1", "act", "g1", 5, RaffleStatus.drawn, "admin", 0, none⟩
    [⟨"a1", "Gold", "g", 1⟩] [⟨"a1", "uA", "A", 1⟩] (by decide) (by decide)

/-- Claim C10: every record produced by a successful `drawWinners` run is
well-formed: its activity id is the drawn activity's id, its user id and
username are those of a participant row registered for that activity, and
its prize name is the name of one of that activity's stored prize lines. -/
theorem winner_records_wellformed (st : RaffleState) (activityId : String)
    (now : Nat) (seed : List Nat) (ws : List RaffleWinner) (st' : RaffleState)
    (hok : drawWinners st activityId now seed = .ok (ws, st')) :
    ∀ w ∈ ws, w.activityId = activityId ∧
      (∃ p ∈ st.participants, p.activityId = activityId ∧
        w.userId = p.userId ∧ w.username = p.username) ∧
      (∃ pr ∈ st.prizes, pr.activityId = activityId ∧ w.prizeName = pr.name) := by
  intro w hw
  unfold drawWinners at hok
  cases hget : getActivity st activityId with
  | none => rw [hget] at hok; exact absurd hok (by simp)
  | some t =>
      obtain ⟨act, ps, parts⟩ := t
      simp only [hget] at hok
      by_cases hact : act.status = RaffleStatus.active
      · rw [if_pos hact] at hok
        simp only [Except.ok.injEq, Prod.mk.injEq] at hok
        obtain ⟨hws, _⟩ := hok
        rw [← hws] at hw
        obtain ⟨h1, _, ⟨pr, hpr, h3⟩, ⟨p, hp, h4, h5⟩⟩ :=
          allocWinners_mem activityId now ps parts seed w hw
        obtain ⟨_, hps, hparts⟩ := getActivity_eq_some st activityId act ps parts hget
        refine ⟨h1, ⟨p, ?_, ?_, h4, h5⟩, ⟨pr, ?_, ?_, h3⟩⟩
        · rw [hparts] at hp
          exact (List.mem_filter.mp hp).1
        · rw [hparts] at hp
          simpa using (List.mem_filter.mp hp).2
        · rw [hps] at hpr
          exact (List.mem_filter.mp hpr).1
        · rw [hps] at hpr
          simpa using (List.mem_filter.mp hpr).2
      · rw [if_neg hact] at hok
        exact absurd hok (by simp)

def exStActive : RaffleState :=
  ⟨[⟨"a1", "act", "g1", 5, RaffleStatus.active, "admin", 0, none⟩],
   exPrizes, exParts, []⟩

theorem winner_records_wellformed_witness :
    (⟨"a1", "uB", "B", "Gold", 7⟩ : RaffleWinner).activityId = "a1" ∧
    (∃ p ∈ exStActive.participants, p.activityId = "a1" ∧
      (⟨"a1", "uB", "B", "Gold", 7⟩ : RaffleWinner).userId = p.userId ∧
      (⟨"a1", "uB", "B", "Gold", 7⟩ : RaffleWinner).username = p.username) ∧
    (∃ pr ∈ exStActive.prizes, pr.activityId = "a1" ∧
      (⟨"a1", "uB", "B", "Gold", 7⟩ : RaffleWinner).prizeName = pr.name) :=
  winner_records_wellformed exStActive "a1" 7 [1, 0, 0]
    (allocWinners "a1" 7 exPrizes exParts [1, 0, 0]).1
    (updateActivityStatus
      { exStActive with winners :=
          exStActive.winners ++ (allocWinners "a1" 7 exPrizes exParts [1, 0, 0]).1 }
      "a1" RaffleStatus.drawn)
    rfl ⟨"a1", "uB", "B", "Gold", 7⟩ (by decide)

/-! ### The scheduler: timers -/

theorem performRaffleDraw_timers (s : SysState) (activityId : String)
    (failPersist : Bool) (seed : List Nat) :
    ((performRaffleDraw s activityId failPersist seed).1).timers = s.timers := by
  unfold performRaffleDraw
  split
  · rfl
  · split
    · split
      · rfl
      · split <;> rfl
    · rfl

theorem performRaffleDraw_now (s : SysState) (activityId : String)
    (failPersist : Bool) (seed : List Nat) :
    ((performRaffleDraw s activityId failPersist seed).1).now = s.now := by
  unfold performRaffleDraw
  split
  · rfl
  · split
    · split
      · rfl
      · split <;> rfl
    · rfl

/-- Claim C7: a `scheduleRaffleDraw` call with a future deadline replaces
(cancel-then-set) any existing timer for the id rather than stacking a
second one — afterwards exactly one timer entry for the id exists — and a
call whose deadline is already past performs the draw immediately, from
the caller's call, creating no timer (the timer map is unchanged). -/
theorem scheduleDraw_replace_or_immediate (s : SysState) (activityId : String)
    (drawTime : Nat) (seed : List Nat) :
    (s.now < drawTime →
      (scheduleRaffleDraw s activityId drawTime seed).timers
        = s.timers.filter (fun t => t.1 ≠ activityId) ++ [(activityId, drawTime)] ∧
      ((scheduleRaffleDraw s activityId drawTime seed).timers.filter
          (fun t => t.1 == activityId)).length = 1 ∧
      (scheduleRaffleDraw s activityId drawTime seed).db = s.db) ∧
    (drawTime ≤ s.now →
      scheduleRaffleDraw s activityId drawTime seed
        = (performRaffleDraw s activityId false seed).1 ∧
      (scheduleRaffleDraw s activityId drawTime seed).timers = s.timers) := by
  constructor
  · intro hfut
    have hn : ¬ drawTime ≤ s.now := by omega
    have htimers : (scheduleRaffleDraw s activityId drawTime seed).timers
        = s.timers.filter (fun t => t.1 ≠ activityId) ++ [(activityId, drawTime)] := by
      simp [scheduleRaffleDraw, hn, cancelTimer]
    refine ⟨htimers, ?_, by simp [scheduleRaffleDraw, hn, cancelTimer]⟩
    rw [htimers, List.filter_append]
    have h1 : (s.timers.filter (fun t => t.1 ≠ activityId)).filter
        (fun t => t.1 == activityId) = [] := by
      rw [List.filter_eq_nil_iff]
      intro t ht
      have h2 := (List.mem_filter.mp ht).2
      simp only [decide_eq_true_eq] at h2
      simp [h2]
    rw [h1]
    simp
  · intro hpast
    constructor
    · simp [scheduleRaffleDraw, hpast]
    · rw [scheduleRaffleDraw, if_pos hpast, performRaffleDraw_timers]

def exSysT : SysState :=
  ⟨exStZero, [("a1", 5), ("b2", 9)], 4, []⟩

theorem scheduleDraw_replace_or_immediate_witness :
    ((scheduleRaffleDraw exSysT "a1" 7 []).timers
        = exSysT.timers.filter (fun t => t.1 ≠ "a1") ++ [("a1", 7)] ∧
      ((scheduleRaffleDraw exSysT "a1" 7 []).timers.filter
          (fun t => t.1 == "a1")).length = 1 ∧
      (scheduleRaffleDraw exSysT "a1" 7 []).db = exSysT.db) ∧
    (scheduleRaffleDraw exSysT "a1" 3 []
        = (performRaffleDraw exSysT "a1" false []).1 ∧
      (scheduleRaffleDraw exSysT "a1" 3 []).timers = exSysT.timers) :=
  ⟨(scheduleDraw_replace_or_immediate exSysT "a1" 7 []).1 (by decide),
   (scheduleDraw_replace_or_immediate exSysT "a1" 3 []).2 (by decide)⟩

/-- Claim C8: a creation request whose deadline is not strictly in the
future, or that contains a prize line with non-positive count, or no prize
line at all, is rejected synchronously with a validation message and the
state is returned unchanged — no activity, prize or participant row is
persisted. -/
theorem create_validation (s : SysState)
    (activityId name guildId createdBy : String) (drawTime : Nat)
    (prizesIn : List PrizeInput) (keyword : Option String) (seed : List Nat)
    (hbad : drawTime ≤ s.now ∨ (∃ p ∈ prizesIn, p.count ≤ 0) ∨ prizesIn = []) :
    ∃ msg : String,
      raffleCreate s activityId name guildId createdBy drawTime prizesIn
        keyword seed = (s, some msg) := by
  unfold raffleCreate
  by_cases h1 : (prizesIn.any (fun p => p.count ≤ 0)) = true
  · exact ⟨_, by rw [if_pos h1]⟩
  · rw [if_neg h1]
    by_cases h2 : prizesIn.isEmpty = true
    · exact ⟨_, by rw [if_pos h2]⟩
    · rw [if_neg h2]
      have h3 : drawTime ≤ s.now := by
        rcases hbad with hb | hb | hb
        · exact hb
        · exfalso
          obtain ⟨p, hp, hpc⟩ := hb
          exact h1 (List.any_eq_true.mpr ⟨p, hp, by simpa using hpc⟩)
        · exact absurd (List.isEmpty_iff.mpr hb) h2
      exact ⟨_, by rw [if_pos h3]⟩

theorem create_validation_witness :
    ∃ msg : String,
      raffleCreate initSys "a9" "act" "g1" "admin" 0
        [⟨"Gold", "g", 1⟩] none [] = (initSys, some msg) :=
  create_validation initSys "a9" "act" "g1" "admin" 0
    [⟨"Gold", "g", 1⟩] none [] (Or.inl (by decide))

/-! ### Claim C4: surfacing of state-guard violations -/

def exActDrawn : RaffleActivity :=
  ⟨"a1", "old", "g1", 5, RaffleStatus.drawn, "admin", 0, none⟩

def exActKw : RaffleActivity :=
  ⟨"a2", "kw-act", "g1", 50, RaffleStatus.active, "admin", 0, some "kw"⟩

def exSysC4 : SysState :=
  ⟨⟨[exActDrawn, exActKw], [⟨"a2", "Gold", "g", 1⟩],
    [⟨"a2", "uA", "A", 1⟩], []⟩, [("a2", 50)], 10, []⟩

/-- Claim C4 counterexample: the claim that every out-of-state join,
cancel or draw attempt surfaces a Conflict error to the caller is false on
the code.  The scheduler's draw execution on a `drawn` activity returns
normally with no error surfaced and no mutation (`performRaffleDraw` logs
a warning and returns), and a keyword-triggered join by a user who already
joined is silently ignored (`return // 静默处理，不提示`): no message, no
error, no mutation. -/
theorem conflict_not_always_surfaced_cex :
    (performRaffleDraw exSysC4 "a1" false []).2 = none ∧
    (performRaffleDraw exSysC4 "a1" false []).1 = exSysC4 ∧
    dbStatus exSysC4.db "a1" = some RaffleStatus.drawn ∧
    (keywordJoin exSysC4 "g1" "uA" "A" "kw").2 = none ∧
    (keywordJoin exSysC4 "g1" "uA" "A" "kw").1 = exSysC4 ∧
    hasUserJoined exSysC4.db "a2" "uA" = true := by
  refine ⟨rfl, ?_, rfl, rfl, ?_, rfl⟩ <;> rfl

/-- Claim C4 (amended): out-of-state attempts through the handler and the
command layer do fail — `drawWinners` throws a state error, the
`raffle.join` and `raffle.cancel` commands reply with a message naming the
current state (`已结束`/`已取消`, `已开奖`) — but the scheduler's own draw
execution on a non-`active` activity only logs and returns without
surfacing any error, and a keyword join by an already-joined user is
silently ignored by design. -/
theorem conflict_surfacing_amended (s : SysState)
    (activityId userId username guildId content : String) (now : Nat)
    (seed : List Nat) (act act2 : RaffleActivity)
    (hfind : s.db.activities.find? (fun a => a.id == activityId) = some act)
    (hna : ¬ act.status = RaffleStatus.active)
    (hmatch : (s.db.activities.filter
        (fun a => a.guildId == guildId && a.status == RaffleStatus.active)).find?
        (fun a => a.keyword == some content) = some act2)
    (hjoined : hasUserJoined s.db act2.id userId = true) :
    drawWinners s.db activityId now seed = .error "活动状态不正确" ∧
    raffleJoin s activityId userId username guildId
      = (s, some (if act.status = RaffleStatus.drawn
                  then "该抽奖活动已结束" else "该抽奖活动已取消")) ∧
    raffleCancel s activityId
      = (s, some (if act.status = RaffleStatus.drawn
                  then "该抽奖活动已开奖，无法取消" else "该抽奖活动已取消，无法取消")) ∧
    performRaffleDraw s activityId false seed = (s, none) ∧
    keywordJoin s guildId userId username content = (s, none) := by
  have hga : getActivity s.db activityId =
      some (act, s.db.prizes.filter (fun p => p.activityId == activityId),
            s.db.participants.filter (fun p => p.activityId == activityId)) := by
    unfold getActivity
    rw [hfind]
  refine ⟨?_, ?_, ?_, ?_, ?_⟩
  · unfold drawWinners
    simp only [hga, if_neg hna]
  · unfold raffleJoin
    simp only [hga, if_neg hna]
  · unfold raffleCancel
    simp only [hga, if_neg hna]
  · unfold performRaffleDraw
    simp only [hga, if_neg hna]
  · unfold keywordJoin
    simp only [hmatch, if_pos hjoined]

theorem conflict_surfacing_amended_witness :
    drawWinners exSysC4.db "a1" 10 [] = .error "活动状态不正确" ∧
    raffleJoin exSysC4 "a1" "uB" "B" "g1"
      = (exSysC4, some (if exActDrawn.status = RaffleStatus.drawn
                  then "该抽奖活动已结束" else "该抽奖活动已取消")) ∧
    raffleCancel exSysC4 "a1"
      = (exSysC4, some (if exActDrawn.status = RaffleStatus.drawn
                  then "该抽奖活动已开奖，无法取消" else "该抽奖活动已取消，无法取消")) ∧
    performRaffleDraw exSysC4 "a1" false [] = (exSysC4, none) ∧
    keywordJoin exSysC4 "g1" "uA" "A" "kw" = (exSysC4, none) :=
  conflict_surfacing_amended exSysC4 "a1" "uA" "A" "g1" "kw" 10 []
    exActDrawn exActKw (by decide) (by decide) (by decide) (by decide)

/-! ### Terminal-state preservation (Claim C3) -/

theorem find?_append_some {α : Type} {p : α → Bool} {l₁ l₂ : List α} {a : α}
    (h : l₁.find? p = some a) : (l₁ ++ l₂).find? p = some a := by
  rw [List.find?_append, h]
  rfl

theorem dbStatus_eq_of_activities (st st' : RaffleState)
    (h : st'.activities = st.activities) (activityId : String) :
    dbStatus st' activityId = dbStatus st activityId := by
  unfold dbStatus
  rw [h]

theorem activities_addParticipant (st : RaffleState)
    (activityId userId username : String) (now : Nat) :
    ((addParticipant st activityId userId username now).2).activities
      = st.activities := by
  unfold addParticipant
  split <;> rfl

theorem drawWinners_ok_shape (st : RaffleState) (activityId : String)
    (now : Nat) (seed : List Nat) (ws : List RaffleWinner) (st' : RaffleState)
    (hok : drawWinners st activityId now seed = .ok (ws, st')) :
    st' = updateActivityStatus { st with winners := st.winners ++ ws }
      activityId RaffleStatus.drawn := by
  unfold drawWinners at hok
  cases hga : getActivity st activityId with
  | none => rw [hga] at hok; exact absurd hok (by simp)
  | some t =>
      obtain ⟨act, ps, parts⟩ := t
      simp only [hga] at hok
      by_cases hact : act.status = RaffleStatus.active
      · rw [if_pos hact] at hok
        simp only [Except.ok.injEq, Prod.mk.injEq] at hok
        obtain ⟨h1, h2⟩ := hok
        rw [← h2, ← h1]
      · rw [if_neg hact] at hok
        exact absurd hok (by simp)

theorem dbStatus_performRaffleDraw_preserve (s : SysState) (target : String)
    (failPersist : Bool) (seed : List Nat) (activityId : String)
    (st0 : RaffleStatus) (h : dbStatus s.db activityId = some st0)
    (hna : st0 ≠ RaffleStatus.active) :
    dbStatus ((performRaffleDraw s target failPersist seed).1).db activityId
      = some st0 := by
  unfold performRaffleDraw
  cases hga : getActivity s.db target with
  | none => simp only [hga]; exact h
  | some t =>
      obtain ⟨act, ps, parts⟩ := t
      have hfind := (getActivity_eq_some s.db target act ps parts hga).1
      by_cases hat : activityId = target
      · subst hat
        have hact : act.status = st0 := by
          unfold dbStatus at h
          rw [hfind] at h
          simpa using h
        have hnact : ¬ act.status = RaffleStatus.active := by
          rw [hact]; exact hna
        simp only [hga, if_neg hnact]
        exact h
      · simp only [hga]
        by_cases hact : act.status = RaffleStatus.active
        · rw [if_pos hact]
          cases failPersist with
          | true =>
              show dbStatus (updateActivityStatus s.db target RaffleStatus.drawn)
                activityId = some st0
              rw [dbStatus_update_other _ _ _ _ hat]
              exact h
          | false =>
              cases hdw : drawWinners s.db target s.now seed with
              | ok r =>
                  obtain ⟨ws, db'⟩ := r
                  have hsh := drawWinners_ok_shape s.db target s.now seed ws db' hdw
                  show dbStatus db' activityId = some st0
                  rw [hsh, dbStatus_update_other _ _ _ _ hat]
                  exact h
              | error e =>
                  show dbStatus (updateActivityStatus s.db target RaffleStatus.drawn)
                    activityId = some st0
                  rw [dbStatus_update_other _ _ _ _ hat]
                  exact h
        · rw [if_neg hact]
          exact h

theorem dbStatus_scheduleRaffleDraw_preserve (s : SysState) (target : String)
    (drawTime : Nat) (seed : List Nat) (activityId : String) (st0 : RaffleStatus)
    (h : dbStatus s.db activityId = some st0) (hna : st0 ≠ RaffleStatus.active) :
    dbStatus ((scheduleRaffleDraw s target drawTime seed)).db activityId
      = some st0 := by
  unfold scheduleRaffleDraw
  by_cases hd : drawTime ≤ s.now
  · rw [if_pos hd]
    exact dbStatus_performRaffleDraw_preserve s target false seed activityId st0 h hna
  · rw [if_neg hd]
    exact h

theorem dbStatus_initTimersStep_preserve (seeds : String → List Nat)
    (s : SysState) (a : RaffleActivity) (activityId : String) (st0 : RaffleStatus)
    (h : dbStatus s.db activityId = some st0) (hna : st0 ≠ RaffleStatus.active) :
    dbStatus ((initTimersStep seeds s a)).db activityId = some st0 := by
  unfold initTimersStep
  by_cases hd : s.now < a.drawTime
  · rw [if_pos hd]
    exact dbStatus_scheduleRaffleDraw_preserve s a.id a.drawTime (seeds a.id)
      activityId st0 h hna
  · rw [if_neg hd]
    exact dbStatus_performRaffleDraw_preserve s a.id false (seeds a.id)
      activityId st0 h hna

theorem dbStatus_initFold_preserve (seeds : String → List Nat) :
    ∀ (l : List RaffleActivity) (s : SysState) (activityId : String)
      (st0 : RaffleStatus),
    dbStatus s.db activityId = some st0 → st0 ≠ RaffleStatus.active →
    dbStatus ((l.foldl (initTimersStep seeds) s)).db activityId = some st0 := by
  intro l
  induction l with
  | nil => intro s activityId st0 h hna; exact h
  | cons a tl ih =>
      intro s activityId st0 h hna
      exact ih _ _ _ (dbStatus_initTimersStep_preserve seeds s a activityId st0 h hna)
        hna

theorem dbStatus_initRaffleTimers_preserve (s : SysState)
    (seeds : String → List Nat) (activityId : String) (st0 : RaffleStatus)
    (h : dbStatus s.db activityId = some st0) (hna : st0 ≠ RaffleStatus.active) :
    dbStatus ((initRaffleTimers s seeds)).db activityId = some st0 := by
  unfold initRaffleTimers
  exact dbStatus_initFold_preserve seeds _ _ activityId st0 h hna

theorem dbStatus_raffleCreate_preserve (s : SysState)
    (newId name guildId createdBy : String) (drawTime : Nat)
    (prizesIn : List PrizeInput) (keyword : Option String) (seed : List Nat)
    (activityId : String) (st0 : RaffleStatus)
    (h : dbStatus s.db activityId = some st0) (hna : st0 ≠ RaffleStatus.active) :
    dbStatus ((raffleCreate s newId name guildId createdBy drawTime prizesIn
      keyword seed).1).db activityId = some st0 := by
  unfold raffleCreate
  split
  · exact h
  · split
    · exact h
    · split
      · exact h
      · apply dbStatus_scheduleRaffleDraw_preserve _ _ _ _ _ _ _ hna
        unfold dbStatus at h ⊢
        cases hf : s.db.activities.find? (fun a => a.id == activityId) with
        | none => rw [hf] at h; exact absurd h (by simp)
        | some a =>
            rw [hf] at h
            rw [find?_append_some hf]
            exact h

theorem dbStatus_raffleJoin_preserve (s : SysState)
    (target userId username guildId : String) (activityId : String)
    (st0 : RaffleStatus) (h : dbStatus s.db activityId = some st0) :
    dbStatus ((raffleJoin s target userId username guildId).1).db activityId
      = some st0 := by
  unfold raffleJoin
  cases hga : getActivity s.db target with
  | none => simp only [hga]; exact h
  | some t =>
      obtain ⟨act, ps, parts⟩ := t
      simp only [hga]
      by_cases hact : act.status = RaffleStatus.active
      · rw [if_pos hact]
        split
        · exact h
        · split
          · exact h
          · show dbStatus (addParticipant s.db target userId username s.now).2
                activityId = some st0
            rw [dbStatus_eq_of_activities s.db _
              (activities_addParticipant s.db target userId username s.now)]
            exact h
      · rw [if_neg hact]
        exact h

theorem dbStatus_keywordJoin_preserve (s : SysState)
    (guildId userId username content : String) (activityId : String)
    (st0 : RaffleStatus) (h : dbStatus s.db activityId = some st0) :
    dbStatus ((keywordJoin s guildId userId username content).1).db activityId
      = some st0 := by
  unfold keywordJoin
  cases hm : (s.db.activities.filter
      (fun a => a.guildId == guildId && a.status == RaffleStatus.active)).find?
      (fun a => a.keyword == some content) with
  | none => simp only [hm]; exact h
  | some act =>
      simp only [hm]
      split
      · exact h
      · split
        · show dbStatus (addParticipant s.db act.id userId username s.now).2
              activityId = some st0
          rw [dbStatus_eq_of_activities s.db _
            (activities_addParticipant s.db act.id userId username s.now)]
          exact h
        · show dbStatus (addParticipant s.db act.id userId username s.now).2
              activityId = some st0
          rw [dbStatus_eq_of_activities s.db _
            (activities_addParticipant s.db act.id userId username s.now)]
          exact h

theorem dbStatus_raffleCancel_preserve (s : SysState) (target : String)
    (activityId : String) (st0 : RaffleStatus)
    (h : dbStatus s.db activityId = some st0) (hna : st0 ≠ RaffleStatus.active) :
    dbStatus ((raffleCancel s target).1).db activityId = some st0 := by
  unfold raffleCancel
  cases hga : getActivity s.db target with
  | none => simp only [hga]; exact h
  | some t =>
      obtain ⟨act, ps, parts⟩ := t
      have hfind := (getActivity_eq_some s.db target act ps parts hga).1
      simp only [hga]
      by_cases hact : act.status = RaffleStatus.active
      · rw [if_pos hact]
        by_cases hat : activityId = target
        · subst hat
          have hst : act.status = st0 := by
            unfold dbStatus at h
            rw [hfind] at h
            simpa using h
          exact absurd (hst ▸ hact) hna
        · show dbStatus (cancelActivity (cancelTimer s target).db target)
              activityId = some st0
          unfold cancelActivity
          rw [dbStatus_update_other _ _ _ _ hat]
          exact h
      · rw [if_neg hact]
        exact h

theorem dbStatus_fireTimer_preserve (s : SysState) (target : String)
    (failPersist : Bool) (seed : List Nat) (activityId : String)
    (st0 : RaffleStatus) (h : dbStatus s.db activityId = some st0)
    (hna : st0 ≠ RaffleStatus.active) :
    dbStatus ((fireTimer s target failPersist seed)).db activityId = some st0 := by
  unfold fireTimer
  exact dbStatus_performRaffleDraw_preserve s target failPersist seed
    activityId st0 h hna

/-- Claim C3: `drawn` and `cancelled` are terminal.  No operation of the
system — creation, either join path, cancellation, a timer firing (with or
without an injected draw failure, covering the catch-recovery that forces
`drawn`), a restart recovery pass, or time passing — ever changes the
stored status of an activity that is already `drawn` or `cancelled`. -/
theorem terminal_states_preserved (s s' : SysState) (hstep : Step s s')
    (activityId : String) (st0 : RaffleStatus)
    (h : dbStatus s.db activityId = some st0)
    (hterm : st0 = RaffleStatus.drawn ∨ st0 = RaffleStatus.cancelled) :
    dbStatus s'.db activityId = some st0 := by
  have hna : st0 ≠ RaffleStatus.active := by
    rcases hterm with h1 | h1 <;> (rw [h1]; simp)
  cases hstep with
  | create newId name gid cb dt ps kw seed hfresh =>
      exact dbStatus_raffleCreate_preserve s newId name gid cb dt ps kw seed
        activityId st0 h hna
  | join target uid un gid =>
      exact dbStatus_raffleJoin_preserve s target uid un gid activityId st0 h
  | kwJoin gid uid un content =>
      exact dbStatus_keywordJoin_preserve s gid uid un content activityId st0 h
  | cancel target =>
      exact dbStatus_raffleCancel_preserve s target activityId st0 h hna
  | fire target d f sd hmem hd =>
      exact dbStatus_fireTimer_preserve s target f sd activityId st0 h hna
  | restart seeds =>
      exact dbStatus_initRaffleTimers_preserve s seeds activityId st0 h hna
  | tick t ht => exact h

theorem terminal_states_preserved_witness :
    dbStatus (raffleCancel exSysC4 "a1").1.db "a1" = some RaffleStatus.drawn :=
  terminal_states_preserved exSysC4 (raffleCancel exSysC4 "a1").1
    (Step.cancel exSysC4 "a1") "a1" RaffleStatus.drawn (by decide) (Or.inl rfl)

/-! ### Exactly-once machinery (Claim C2) -/

theorem map_map_eq_of_eq {α β : Type} (f : α → α) (g : α → β)
    (h : ∀ a, g (f a) = g a) (l : List α) : (l.map f).map g = l.map g := by
  induction l with
  | nil => rfl
  | cons a tl ih => simp only [List.map_cons, h a, ih]

theorem upd_id (target : String) (x : RaffleStatus) (a : RaffleActivity) :
    (if a.id == target then { a with status := x } else a).id = a.id := by
  by_cases h : (a.id == target) = true <;> simp [h]

theorem upd_drawTime (target : String) (x : RaffleStatus) (a : RaffleActivity) :
    (if a.id == target then { a with status := x } else a).drawTime
      = a.drawTime := by
  by_cases h : (a.id == target) = true <;> simp [h]

theorem activityIds_update (st : RaffleState) (target : String)
    (x : RaffleStatus) :
    activityIds (updateActivityStatus st target x) = activityIds st :=
  map_map_eq_of_eq _ _ (upd_id target x) st.activities

theorem row_unique (l : List RaffleActivity)
    (hnd : (l.map (fun a => a.id)).Nodup) (a b : RaffleActivity)
    (ha : a ∈ l) (hb : b ∈ l) (hid : a.id = b.id) : a = b :=
  List.inj_on_of_nodup_map hnd ha hb hid

theorem getActivity_none (st : RaffleState) (activityId : String)
    (h : getActivity st activityId = none) :
    st.activities.find? (fun a => a.id == activityId) = none := by
  unfold getActivity at h
  cases hf : st.activities.find? (fun a => a.id == activityId) with
  | none => rfl
  | some a => rw [hf] at h; exact absurd h (by simp)

theorem mem_activities_update (st : RaffleState) (target : String)
    (x : RaffleStatus) (hx : x ≠ RaffleStatus.active) :
    ∀ a' ∈ (updateActivityStatus st target x).activities,
      a'.status = RaffleStatus.active →
      a' ∈ st.activities ∧ a'.id ≠ target := by
  intro a' ha' hact
  obtain ⟨a, ha, hupd⟩ := List.mem_map.mp ha'
  by_cases h : (a.id == target) = true
  · rw [if_pos h] at hupd
    rw [← hupd] at hact
    exact absurd hact hx
  · rw [if_neg h] at hupd
    subst hupd
    exact ⟨ha, by simpa using h⟩

/-- After `performRaffleDraw` on some target, every still-`active` row was
already an `active` row before and its id is not the target (given unique
ids). -/
theorem active_after_perform (s : SysState) (target : String) (f : Bool)
    (sd : List Nat) (hnd : (activityIds s.db).Nodup) :
    ∀ a' ∈ ((performRaffleDraw s target f sd).1).db.activities,
      a'.status = RaffleStatus.active →
      a' ∈ s.db.activities ∧ a'.id ≠ target := by
  intro a' ha' hact
  unfold performRaffleDraw at ha'
  cases hga : getActivity s.db target with
  | none =>
      rw [hga] at ha'
      refine ⟨ha', fun hid => ?_⟩
      have hf := getActivity_none s.db target hga
      have := List.find?_eq_none.mp hf a' ha'
      exact this (by simp [hid])
  | some t =>
      obtain ⟨act, ps, parts⟩ := t
      have hfind := (getActivity_eq_some s.db target act ps parts hga).1
      have hmem := List.mem_of_find?_eq_some hfind
      have hid : act.id = target := by
        have := @List.find?_some _ (fun a => a.id == target) act _ hfind
        simpa using this
      simp only [hga] at ha'
      by_cases hst : act.status = RaffleStatus.active
      · rw [if_pos hst] at ha'
        have key : ∀ st1 : RaffleState, st1.activities = s.db.activities →
            a' ∈ (updateActivityStatus st1 target RaffleStatus.drawn).activities →
            a' ∈ s.db.activities ∧ a'.id ≠ target := by
          intro st1 heq hmem'
          have := mem_activities_update st1 target RaffleStatus.drawn
            (by simp) a' hmem' hact
          rw [heq] at this
          exact this
        cases f with
        | true => exact key s.db rfl ha'
        | false =>
            revert ha'
            cases hdw : drawWinners s.db target s.now sd with
            | ok r =>
                obtain ⟨ws, db'⟩ := r
                intro ha'
                have hsh := drawWinners_ok_shape s.db target s.now sd ws db' hdw
                rw [hsh] at ha'
                exact key _ rfl ha'
            | error e =>
                intro ha'
                exact key s.db rfl ha'
      · rw [if_neg hst] at ha'
        refine ⟨ha', fun hid' => ?_⟩
        have : a' = act := row_unique s.db.activities hnd a' act ha' hmem
          (by rw [hid', hid])
        rw [this] at hact
        exact hst hact

theorem scheduleRaffleDraw_future (s : SysState) (target : String)
    (drawTime : Nat) (sd : List Nat) (hd : ¬ drawTime ≤ s.now) :
    scheduleRaffleDraw s target drawTime sd =
      { s with timers :=
          s.timers.filter (fun t => t.1 ≠ target) ++ [(target, drawTime)] } := by
  unfold scheduleRaffleDraw
  rw [if_neg hd]
  rfl

theorem scheduleRaffleDraw_past (s : SysState) (target : String)
    (drawTime : Nat) (sd : List Nat) (hd : drawTime ≤ s.now) :
    scheduleRaffleDraw s target drawTime sd
      = (performRaffleDraw s target false sd).1 := by
  unfold scheduleRaffleDraw
  rw [if_pos hd]

theorem count_append_self (l : List String) (t : String) :
    (l ++ [t]).count t = l.count t + 1 := by
  simp

theorem count_append_other (l : List String) (t activityId : String)
    (h : activityId ≠ t) : (l ++ [t]).count activityId = l.count activityId := by
  have ht : t ≠ activityId := fun he => h he.symm
  simp [List.count_append, List.count_singleton, ht]

/-- Log part of the invariant through `performRaffleDraw`: at most one new
log entry appears, only for the target, and only together with the target
reaching `drawn`. -/
theorem logInv_performRaffleDraw (s : SysState) (target : String) (f : Bool)
    (sd : List Nat)
    (hlog : ∀ aid : String, drawCount s aid ≤ 1 ∧
      (drawCount s aid = 1 → dbStatus s.db aid = some RaffleStatus.drawn)) :
    ∀ aid : String,
      drawCount ((performRaffleDraw s target f sd).1) aid ≤ 1 ∧
      (drawCount ((performRaffleDraw s target f sd).1) aid = 1 →
        dbStatus ((performRaffleDraw s target f sd).1).db aid
          = some RaffleStatus.drawn) := by
  intro aid
  unfold performRaffleDraw
  cases hga : getActivity s.db target with
  | none => simp only [hga]; exact hlog aid
  | some t =>
      obtain ⟨act, ps, parts⟩ := t
      have hfind := (getActivity_eq_some s.db target act ps parts hga).1
      have hdbt : dbStatus s.db target = some act.status := by
        unfold dbStatus
        rw [hfind]
        rfl
      simp only [hga]
      by_cases hst : act.status = RaffleStatus.active
      · rw [if_pos hst]
        have hforce : ∀ aid', drawCount s aid' = 1 →
            dbStatus (updateActivityStatus s.db target RaffleStatus.drawn) aid'
              = some RaffleStatus.drawn := by
          intro aid' h1
          by_cases hat : aid' = target
          · rw [hat, dbStatus_update_self, hdbt]
            rfl
          · rw [dbStatus_update_other _ _ _ _ hat]
            exact (hlog aid').2 h1
        cases f with
        | true => exact ⟨(hlog aid).1, hforce aid⟩
        | false =>
            cases hdw : drawWinners s.db target s.now sd with
            | ok r =>
                obtain ⟨ws, db'⟩ := r
                have hsh := drawWinners_ok_shape s.db target s.now sd ws db' hdw
                have hwin : dbStatus { s.db with winners := s.db.winners ++ ws } aid
                    = dbStatus s.db aid := rfl
                have hdbafter : dbStatus db' target = some RaffleStatus.drawn := by
                  rw [hsh, dbStatus_update_self]
                  have hwin2 : dbStatus { s.db with winners := s.db.winners ++ ws }
                      target = dbStatus s.db target := rfl
                  rw [hwin2, hdbt]
                  rfl
                by_cases hat : aid = target
                · have hc0 : drawCount s aid = 0 := by
                    have hle := (hlog aid).1
                    rcases Nat.lt_or_ge (drawCount s aid) 1 with hlt | hge
                    · omega
                    · exfalso
                      have h1 : drawCount s aid = 1 := by omega
                      have h2 := (hlog aid).2 h1
                      rw [hat, hdbt, hst] at h2
                      exact absurd h2 (by simp)
                  constructor
                  · show (s.drawLog ++ [target]).count aid ≤ 1
                    rw [hat, count_append_self]
                    unfold drawCount at hc0
                    rw [hat] at hc0
                    omega
                  · intro _
                    show dbStatus db' aid = some RaffleStatus.drawn
                    rw [hat]
                    exact hdbafter
                · constructor
                  · show (s.drawLog ++ [target]).count aid ≤ 1
                    rw [count_append_other _ _ _ hat]
                    exact (hlog aid).1
                  · intro h1
                    show dbStatus db' aid = some RaffleStatus.drawn
                    have h1' : drawCount s aid = 1 := by
                      unfold drawCount
                      have : (s.drawLog ++ [target]).count aid = 1 := h1
                      rw [count_append_other _ _ _ hat] at this
                      exact this
                    rw [hsh, dbStatus_update_other _ _ _ _ hat, hwin]
                    exact (hlog aid).2 h1'
            | error e => exact ⟨(hlog aid).1, hforce aid⟩
      · rw [if_neg hst]
        exact hlog aid

theorem map_activities_update {β : Type} (st : RaffleState) (target : String)
    (x : RaffleStatus) (g : RaffleActivity → β)
    (hg : ∀ a, g { a with status := x } = g a) :
    (updateActivityStatus st target x).activities.map g
      = st.activities.map g := by
  apply map_map_eq_of_eq
  intro a
  by_cases h : (a.id == target) = true
  · rw [if_pos h]
    exact hg a
  · rw [if_neg h]

theorem map_activities_performRaffleDraw {β : Type} (s : SysState)
    (target : String) (f : Bool) (sd : List Nat) (g : RaffleActivity → β)
    (hg : ∀ a, g { a with status := RaffleStatus.drawn } = g a) :
    ((performRaffleDraw s target f sd).1).db.activities.map g
      = s.db.activities.map g := by
  unfold performRaffleDraw
  cases hga : getActivity s.db target with
  | none => simp only [hga]
  | some t =>
      obtain ⟨act, ps, parts⟩ := t
      simp only [hga]
      by_cases hst : act.status = RaffleStatus.active
      · rw [if_pos hst]
        cases f with
        | true => exact map_activities_update s.db target RaffleStatus.drawn g hg
        | false =>
            cases hdw : drawWinners s.db target s.now sd with
            | ok r =>
                obtain ⟨ws, db'⟩ := r
                have hsh := drawWinners_ok_shape s.db target s.now sd ws db' hdw
                show db'.activities.map g = s.db.activities.map g
                rw [hsh]
                exact map_activities_update _ target RaffleStatus.drawn g hg
            | error e =>
                exact map_activities_update s.db target RaffleStatus.drawn g hg
      · rw [if_neg hst]

theorem activityIds_performRaffleDraw (s : SysState) (target : String)
    (f : Bool) (sd : List Nat) :
    activityIds ((performRaffleDraw s target f sd).1).db = activityIds s.db :=
  map_activities_performRaffleDraw s target f sd (fun a => a.id) (fun a => rfl)

theorem pairs_performRaffleDraw (s : SysState) (target : String) (f : Bool)
    (sd : List Nat) :
    ((performRaffleDraw s target f sd).1).db.activities.map
        (fun a => (a.id, a.drawTime))
      = s.db.activities.map (fun a => (a.id, a.drawTime)) :=
  map_activities_performRaffleDraw s target f sd
    (fun a => (a.id, a.drawTime)) (fun a => rfl)

theorem pairs_functional (l : List RaffleActivity)
    (hnd : (l.map (fun a => a.id)).Nodup) :
    ∀ p ∈ l.map (fun a => (a.id, a.drawTime)),
    ∀ q ∈ l.map (fun a => (a.id, a.drawTime)), p.1 = q.1 → p = q := by
  intro p hp q hq h1
  obtain ⟨a, ha, hpa⟩ := List.mem_map.mp hp
  obtain ⟨b, hb, hqb⟩ := List.mem_map.mp hq
  subst hpa
  subst hqb
  simp only at h1
  rw [row_unique l hnd a b ha hb h1]

theorem activityIds_eq_of_pairs (st st' : RaffleState)
    (h : st'.activities.map (fun a => (a.id, a.drawTime))
       = st.activities.map (fun a => (a.id, a.drawTime))) :
    activityIds st' = activityIds st := by
  have h2 := congrArg (List.map Prod.fst) h
  rw [List.map_map, List.map_map] at h2
  exact h2

/-- Full invariant through `performRaffleDraw`. -/
theorem sysInv_performRaffleDraw (s : SysState) (target : String) (f : Bool)
    (sd : List Nat) (hinv : SysInv s) :
    SysInv ((performRaffleDraw s target f sd).1) := by
  obtain ⟨h1, h2, h3⟩ := hinv
  refine ⟨?_, ?_, logInv_performRaffleDraw s target f sd h3⟩
  · rw [activityIds_performRaffleDraw]
    exact h1
  · intro a' ha' hact
    obtain ⟨hmem, _⟩ := active_after_perform s target f sd h1 a' ha' hact
    rw [performRaffleDraw_timers]
    exact h2 a' hmem hact

/-- Full invariant through a timer firing. -/
theorem sysInv_fireTimer (s : SysState) (target : String) (f : Bool)
    (sd : List Nat) (hinv : SysInv s) :
    SysInv (fireTimer s target f sd) := by
  obtain ⟨h1, h2, h3⟩ := hinv
  have hps := sysInv_performRaffleDraw s target f sd ⟨h1, h2, h3⟩
  obtain ⟨p1, p2, p3⟩ := hps
  refine ⟨p1, ?_, p3⟩
  intro a' ha' hact
  show (a'.id, a'.drawTime) ∈
    ((performRaffleDraw s target f sd).1).timers.filter (fun t => t.1 ≠ target)
  obtain ⟨hmem, hne⟩ := active_after_perform s target f sd h1 a' ha' hact
  refine List.mem_filter.mpr ⟨p2 a' ha' hact, by simpa using hne⟩

theorem sysInv_raffleCreate (s : SysState)
    (newId name guildId createdBy : String) (drawTime : Nat)
    (prizesIn : List PrizeInput) (keyword : Option String) (sd : List Nat)
    (hinv : SysInv s) (hfresh : ∀ a ∈ s.db.activities, a.id ≠ newId) :
    SysInv ((raffleCreate s newId name guildId createdBy drawTime prizesIn
      keyword sd).1) := by
  obtain ⟨h1, h2, h3⟩ := hinv
  unfold raffleCreate
  split
  · exact ⟨h1, h2, h3⟩
  · split
    · exact ⟨h1, h2, h3⟩
    · split
      · exact ⟨h1, h2, h3⟩
      · rename_i hc1 hc2 hd
        dsimp only
        rw [scheduleRaffleDraw_future _ _ _ _ (by exact hd)]
        refine ⟨?_, ?_, ?_⟩
        · show ((s.db.activities ++
            [(⟨newId, name, guildId, drawTime, RaffleStatus.active, createdBy,
              s.now, keyword⟩ : RaffleActivity)]).map (fun a => a.id)).Nodup
          rw [List.map_append]
          refine List.Nodup.append h1 (by simp) ?_
          intro x hx hmem
          obtain ⟨b, hb, hbx⟩ := List.mem_map.mp hx
          have : x = newId := by simpa using hmem
          exact hfresh b hb (by rw [hbx, this])
        · intro a ha hact
          rcases List.mem_append.mp ha with hold | hnew
          · refine List.mem_append_left _ (List.mem_filter.mpr
              ⟨h2 a hold hact, by simpa using hfresh a hold⟩)
          · have : a = ⟨newId, name, guildId, drawTime, RaffleStatus.active,
                createdBy, s.now, keyword⟩ := by simpa using hnew
            rw [this]
            simp
        · intro aid
          refine ⟨(h3 aid).1, ?_⟩
          intro hc
          have hdb := (h3 aid).2 hc
          unfold dbStatus at hdb ⊢
          cases hf : s.db.activities.find? (fun x => x.id == aid) with
          | none => rw [hf] at hdb; exact absurd hdb (by simp)
          | some b =>
              rw [hf] at hdb
              rw [find?_append_some hf]
              exact hdb

theorem sysInv_raffleJoin (s : SysState)
    (target userId username guildId : String) (hinv : SysInv s) :
    SysInv ((raffleJoin s target userId username guildId).1) := by
  obtain ⟨h1, h2, h3⟩ := hinv
  have hkeep : ∀ st' : RaffleState, st'.activities = s.db.activities →
      SysInv { s with db := st' } := by
    intro st' heq
    refine ⟨?_, ?_, ?_⟩
    · show (activityIds st').Nodup
      unfold activityIds
      rw [heq]
      exact h1
    · intro a ha hact
      rw [heq] at ha
      exact h2 a ha hact
    · intro aid
      refine ⟨(h3 aid).1, ?_⟩
      intro hc
      show dbStatus st' aid = some RaffleStatus.drawn
      rw [dbStatus_eq_of_activities s.db st' heq]
      exact (h3 aid).2 hc
  unfold raffleJoin
  cases hga : getActivity s.db target with
  | none => simp only [hga]; exact ⟨h1, h2, h3⟩
  | some t =>
      obtain ⟨act, ps, parts⟩ := t
      simp only [hga]
      by_cases hact : act.status = RaffleStatus.active
      · rw [if_pos hact]
        split
        · exact ⟨h1, h2, h3⟩
        · split
          · exact ⟨h1, h2, h3⟩
          · exact hkeep _ (activities_addParticipant s.db target userId
              username s.now)
      · rw [if_neg hact]
        exact ⟨h1, h2, h3⟩

theorem sysInv_keywordJoin (s : SysState)
    (guildId userId username content : String) (hinv : SysInv s) :
    SysInv ((keywordJoin s guildId userId username content).1) := by
  obtain ⟨h1, h2, h3⟩ := hinv
  have hkeep : ∀ st' : RaffleState, st'.activities = s.db.activities →
      SysInv { s with db := st' } := by
    intro st' heq
    refine ⟨?_, ?_, ?_⟩
    · show (activityIds st').Nodup
      unfold activityIds
      rw [heq]
      exact h1
    · intro a ha hact
      rw [heq] at ha
      exact h2 a ha hact
    · intro aid
      refine ⟨(h3 aid).1, ?_⟩
      intro hc
      show dbStatus st' aid = some RaffleStatus.drawn
      rw [dbStatus_eq_of_activities s.db st' heq]
      exact (h3 aid).2 hc
  unfold keywordJoin
  cases hm : (s.db.activities.filter
      (fun a => a.guildId == guildId && a.status == RaffleStatus.active)).find?
      (fun a => a.keyword == some content) with
  | none => simp only [hm]; exact ⟨h1, h2, h3⟩
  | some act =>
      simp only [hm]
      split
      · exact ⟨h1, h2, h3⟩
      · split
        · exact hkeep _ (activities_addParticipant s.db act.id userId
            username s.now)
        · exact hkeep _ (activities_addParticipant s.db act.id userId
            username s.now)

theorem sysInv_raffleCancel (s : SysState) (target : String)
    (hinv : SysInv s) : SysInv ((raffleCancel s target).1) := by
  obtain ⟨h1, h2, h3⟩ := hinv
  unfold raffleCancel
  cases hga : getActivity s.db target with
  | none => simp only [hga]; exact ⟨h1, h2, h3⟩
  | some t =>
      obtain ⟨act, ps, parts⟩ := t
      have hfind := (getActivity_eq_some s.db target act ps parts hga).1
      have hdbt : dbStatus s.db target = some act.status := by
        unfold dbStatus
        rw [hfind]
        rfl
      simp only [hga]
      by_cases hact : act.status = RaffleStatus.active
      · rw [if_pos hact]
        refine ⟨?_, ?_, ?_⟩
        · show (activityIds (cancelActivity s.db target)).Nodup
          unfold cancelActivity
          rw [activityIds_update]
          exact h1
        · intro a' ha' hact'
          obtain ⟨hmem, hne⟩ := mem_activities_update s.db target
            RaffleStatus.cancelled (by simp) a' ha' hact'
          show (a'.id, a'.drawTime) ∈ s.timers.filter (fun t => t.1 ≠ target)
          exact List.mem_filter.mpr ⟨h2 a' hmem hact', by simpa using hne⟩
        · intro aid
          refine ⟨(h3 aid).1, ?_⟩
          intro hc
          have hdb := (h3 aid).2 hc
          by_cases hat : aid = target
          · exfalso
            rw [hat, hdbt] at hdb
            rw [hact] at hdb
            exact absurd hdb (by simp)
          · show dbStatus (cancelActivity s.db target) aid
              = some RaffleStatus.drawn
            unfold cancelActivity
            rw [dbStatus_update_other _ _ _ _ hat]
            exact hdb
      · rw [if_neg hact]
        exact ⟨h1, h2, h3⟩

/-- Fold invariant for the startup recovery loop. -/
theorem initFold_inv (seeds : String → List Nat) (orig : SysState)
    (hnodorig : (activityIds orig.db).Nodup) :
    ∀ (R : List RaffleActivity) (cur : SysState),
    (∀ r ∈ R, r ∈ orig.db.activities) →
    cur.now = orig.now →
    cur.db.activities.map (fun a => (a.id, a.drawTime))
      = orig.db.activities.map (fun a => (a.id, a.drawTime)) →
    (∀ a' ∈ cur.db.activities, a'.status = RaffleStatus.active →
      (a'.id, a'.drawTime) ∈ cur.timers ∨ ∃ r ∈ R, r.id = a'.id) →
    (∀ aid : String, drawCount cur aid ≤ 1 ∧
      (drawCount cur aid = 1 → dbStatus cur.db aid = some RaffleStatus.drawn)) →
    ((R.foldl (initTimersStep seeds) cur).db.activities.map
        (fun a => (a.id, a.drawTime))
      = orig.db.activities.map (fun a => (a.id, a.drawTime))) ∧
    (∀ a' ∈ (R.foldl (initTimersStep seeds) cur).db.activities,
      a'.status = RaffleStatus.active →
      (a'.id, a'.drawTime) ∈ (R.foldl (initTimersStep seeds) cur).timers) ∧
    (∀ aid : String, drawCount (R.foldl (initTimersStep seeds) cur) aid ≤ 1 ∧
      (drawCount (R.foldl (initTimersStep seeds) cur) aid = 1 →
        dbStatus (R.foldl (initTimersStep seeds) cur).db aid
          = some RaffleStatus.drawn)) := by
  intro R
  induction R with
  | nil =>
      intro cur hmem hnow hpairs htimer hlog
      refine ⟨hpairs, ?_, hlog⟩
      intro a' ha' hact
      rcases htimer a' ha' hact with h | h
      · exact h
      · obtain ⟨r, hr, _⟩ := h
        exact absurd hr (by simp)
  | cons r0 R' ih =>
      intro cur hmem hnow hpairs htimer hlog
      have hnodcur : (activityIds cur.db).Nodup := by
        rw [activityIds_eq_of_pairs orig.db cur.db hpairs]
        exact hnodorig
      rw [List.foldl_cons]
      apply ih
      · intro r hr
        exact hmem r (by simp [hr])
      · unfold initTimersStep
        by_cases hd : cur.now < r0.drawTime
        · rw [if_pos hd, scheduleRaffleDraw_future _ _ _ _ (by omega)]
          exact hnow
        · rw [if_neg hd, performRaffleDraw_now]
          exact hnow
      · unfold initTimersStep
        by_cases hd : cur.now < r0.drawTime
        · rw [if_pos hd, scheduleRaffleDraw_future _ _ _ _ (by omega)]
          exact hpairs
        · rw [if_neg hd, pairs_performRaffleDraw]
          exact hpairs
      · intro a' ha' hact
        unfold initTimersStep at ha' ⊢
        by_cases hd : cur.now < r0.drawTime
        · rw [if_pos hd, scheduleRaffleDraw_future _ _ _ _ (by omega)] at ha' ⊢
          by_cases hid : a'.id = r0.id
          · left
            have hp : (a'.id, a'.drawTime) ∈
                orig.db.activities.map (fun a => (a.id, a.drawTime)) := by
              rw [← hpairs]
              exact List.mem_map_of_mem _ ha'
            have hq : (r0.id, r0.drawTime) ∈
                orig.db.activities.map (fun a => (a.id, a.drawTime)) :=
              List.mem_map_of_mem _ (hmem r0 (by simp))
            have heq := pairs_functional orig.db.activities hnodorig _ hp _ hq
              (by simpa using hid)
            rw [heq]
            simp
          · rcases htimer a' ha' hact with h | h
            · left
              exact List.mem_append_left _
                (List.mem_filter.mpr ⟨h, by simpa using hid⟩)
            · obtain ⟨r, hr, hrid⟩ := h
              rcases List.mem_cons.mp hr with h0 | h0
              · exfalso
                rw [h0] at hrid
                exact hid hrid.symm
              · right
                exact ⟨r, h0, hrid⟩
        · rw [if_neg hd] at ha' ⊢
          obtain ⟨hmem2, hne⟩ := active_after_perform cur r0.id false
            (seeds r0.id) hnodcur a' ha' hact
          rw [performRaffleDraw_timers]
          rcases htimer a' hmem2 hact with h | h
          · left
            exact h
          · obtain ⟨r, hr, hrid⟩ := h
            rcases List.mem_cons.mp hr with h0 | h0
            · exfalso
              rw [h0] at hrid
              exact hne hrid.symm
            · right
              exact ⟨r, h0, hrid⟩
      · unfold initTimersStep
        by_cases hd : cur.now < r0.drawTime
        · rw [if_pos hd, scheduleRaffleDraw_future _ _ _ _ (by omega)]
          exact hlog
        · rw [if_neg hd]
          exact logInv_performRaffleDraw cur r0.id false (seeds r0.id) hlog

theorem sysInv_initRaffleTimers (s : SysState) (seeds : String → List Nat)
    (hinv : SysInv s) : SysInv (initRaffleTimers s seeds) := by
  obtain ⟨h1, h2, h3⟩ := hinv
  unfold initRaffleTimers
  have htimer0 : ∀ a' ∈ ({ s with timers := ([] : List (String × Nat)) }).db.activities,
      a'.status = RaffleStatus.active →
      (a'.id, a'.drawTime) ∈ ({ s with timers := ([] : List (String × Nat)) }).timers ∨
      ∃ r ∈ s.db.activities.filter (fun a => a.status == RaffleStatus.active),
        r.id = a'.id := by
    intro a' ha' hact
    right
    exact ⟨a', List.mem_filter.mpr ⟨ha', by simp [hact]⟩, rfl⟩
  obtain ⟨k1, k2, k3⟩ := initFold_inv seeds s h1
    (s.db.activities.filter (fun a => a.status == RaffleStatus.active))
    { s with timers := [] }
    (fun r hr => (List.mem_filter.mp hr).1)
    rfl rfl htimer0 h3
  refine ⟨?_, k2, k3⟩
  rw [activityIds_eq_of_pairs s.db _ k1]
  exact h1

theorem sysInv_step (s s' : SysState) (hstep : Step s s') (hinv : SysInv s) :
    SysInv s' := by
  cases hstep with
  | create newId name gid cb dt ps kw seed hfresh =>
      exact sysInv_raffleCreate s newId name gid cb dt ps kw seed hinv hfresh
  | join target uid un gid =>
      exact sysInv_raffleJoin s target uid un gid hinv
  | kwJoin gid uid un content =>
      exact sysInv_keywordJoin s gid uid un content hinv
  | cancel target =>
      exact sysInv_raffleCancel s target hinv
  | fire target d f sd hmem hd =>
      exact sysInv_fireTimer s target f sd hinv
  | restart seeds =>
      exact sysInv_initRaffleTimers s seeds hinv
  | tick t ht => exact hinv

theorem sysInv_reachable (s : SysState) (h : Reachable s) : SysInv s := by
  induction h with
  | init =>
      refine ⟨by simp [initSys, activityIds], ?_, ?_⟩
      · intro a ha
        simp [initSys] at ha
      · intro aid
        refine ⟨by simp [drawCount, initSys], ?_⟩
        intro hc
        simp [drawCount, initSys] at hc
  | step hr hs ih => exact sysInv_step _ _ hs ih

/-- On an `active` target found in the store, a timer firing without
injected failure completes the draw: the target ends `drawn` and exactly
one log entry is appended. -/
theorem performRaffleDraw_fire_active (s : SysState) (activityId : String)
    (seed : List Nat) (a : RaffleActivity)
    (hfind : s.db.activities.find? (fun x => x.id == activityId) = some a)
    (hact : a.status = RaffleStatus.active) :
    dbStatus ((performRaffleDraw s activityId false seed).1).db activityId
      = some RaffleStatus.drawn ∧
    ((performRaffleDraw s activityId false seed).1).drawLog
      = s.drawLog ++ [activityId] := by
  have hga : getActivity s.db activityId = some (a,
      s.db.prizes.filter (fun p => p.activityId == activityId),
      s.db.participants.filter (fun p => p.activityId == activityId)) := by
    unfold getActivity
    rw [hfind]
  unfold performRaffleDraw
  simp only [hga, if_pos hact, Bool.false_eq_true, if_false]
  cases hdw : drawWinners s.db activityId s.now seed with
  | ok r =>
      obtain ⟨ws, db'⟩ := r
      have hsh := drawWinners_ok_shape s.db activityId s.now seed ws db' hdw
      constructor
      · show dbStatus db' activityId = some RaffleStatus.drawn
        rw [hsh, dbStatus_update_self]
        have hwin : dbStatus { s.db with winners := s.db.winners ++ ws }
            activityId = dbStatus s.db activityId := rfl
        rw [hwin]
        unfold dbStatus
        rw [hfind]
        rfl
      · rfl
  | error e =>
      exfalso
      unfold drawWinners at hdw
      simp only [hga, if_pos hact] at hdw
      exact absurd hdw (by simp)

/-- Claim C2: for every reachable system state and every activity that is
`active` in it, the ghost log proves the allocator has never completed for
any activity more than once, a timer is armed for the activity's deadline
(creation arms it, a restart before the deadline re-arms it via
`initializeRaffleTimers`, a restart after the deadline fires the overdue
draw during startup — all covered because `Reachable` includes the
`restart` step), and once the deadline has passed, firing that timer is an
enabled step of the system after which the activity is `drawn` and the
allocator has run exactly once — and still at most once for every
activity. -/
theorem exactly_once_draw (s : SysState) (hs : Reachable s)
    (activityId : String) (a : RaffleActivity) (seed : List Nat)
    (hfind : s.db.activities.find? (fun x => x.id == activityId) = some a)
    (hact : a.status = RaffleStatus.active) :
    (∀ aid : String, drawCount s aid ≤ 1) ∧
    (activityId, a.drawTime) ∈ s.timers ∧
    (a.drawTime ≤ s.now →
      Step s (fireTimer s activityId false seed) ∧
      dbStatus (fireTimer s activityId false seed).db activityId
        = some RaffleStatus.drawn ∧
      drawCount (fireTimer s activityId false seed) activityId = 1 ∧
      (∀ aid : String, drawCount (fireTimer s activityId false seed) aid ≤ 1)) := by
  obtain ⟨h1, h2, h3⟩ := sysInv_reachable s hs
  have hmem := List.mem_of_find?_eq_some hfind
  have hid : a.id = activityId := by
    have := @List.find?_some _ (fun x => x.id == activityId) a _ hfind
    simpa using this
  have harmed : (activityId, a.drawTime) ∈ s.timers := by
    have := h2 a hmem hact
    rwa [hid] at this
  refine ⟨fun aid => (h3 aid).1, harmed, ?_⟩
  intro hddl
  have hstep : Step s (fireTimer s activityId false seed) :=
    Step.fire s activityId a.drawTime false seed harmed hddl
  obtain ⟨hdrawn, hlogapp⟩ :=
    performRaffleDraw_fire_active s activityId seed a hfind hact
  have hc0 : drawCount s activityId = 0 := by
    have hle := (h3 activityId).1
    by_contra hne
    have hc1 : drawCount s activityId = 1 := by omega
    have hdb := (h3 activityId).2 hc1
    unfold dbStatus at hdb
    rw [hfind] at hdb
    have hds : a.status = RaffleStatus.drawn := by simpa using hdb
    rw [hact] at hds
    simp at hds
  refine ⟨hstep, hdrawn, ?_, ?_⟩
  · show ((performRaffleDraw s activityId false seed).1).drawLog.count
        activityId = 1
    rw [hlogapp, count_append_self]
    unfold drawCount at hc0
    omega
  · intro aid
    exact ((sysInv_step s _ hstep ⟨h1, h2, h3⟩).2.2 aid).1

def exCreatedS : SysState :=
  (raffleCreate initSys "a1" "act" "g1" "admin" 5
    [⟨"Gold", "g", 1⟩] none []).1

def exReadyS : SysState := { exCreatedS with now := 10 }

def exReadyAct : RaffleActivity :=
  ⟨"a1", "act", "g1", 5, RaffleStatus.active, "admin", 0, none⟩

theorem exactly_once_draw_witness :
    (∀ aid : String, drawCount exReadyS aid ≤ 1) ∧
    ("a1", exReadyAct.drawTime) ∈ exReadyS.timers ∧
    (exReadyAct.drawTime ≤ exReadyS.now →
      Step exReadyS (fireTimer exReadyS "a1" false []) ∧
      dbStatus (fireTimer exReadyS "a1" false []).db "a1"
        = some RaffleStatus.drawn ∧
      drawCount (fireTimer exReadyS "a1" false []) "a1" = 1 ∧
      (∀ aid : String, drawCount (fireTimer exReadyS "a1" false []) aid ≤ 1)) := by
  have h1 : Step initSys exCreatedS :=
    Step.create initSys "a1" "act" "g1" "admin" 5 [⟨"Gold", "g", 1⟩] none []
      (by intro a ha; simp [initSys] at ha)
  have h2 : Step exCreatedS exReadyS :=
    Step.tick exCreatedS 10 (by decide)
  have hre : Reachable exReadyS :=
    Reachable.step (Reachable.step Reachable.init h1) h2
  exact exactly_once_draw exReadyS hre "a1" exReadyAct [] (by decide) (by decide)

/-! ### Fairness of the allocator (Claim C9) -/

theorem selectWinners_nil {α : Type} (m : Nat) (seed : List Nat) :
    selectWinners ([] : List α) m seed = [] := by
  cases m with
  | zero => rfl
  | succ m => simp [selectWinners]

theorem selectWinners_mem {α : Type} :
    ∀ (m : Nat) (l : List α) (seed : List Nat) (x : α),
    x ∈ selectWinners l m seed → x ∈ l := by
  intro m
  induction m with
  | zero => intro l seed x hx; simp [selectWinners] at hx
  | succ m ih =>
      intro l seed x hx
      by_cases h : 0 < l.length
      · simp only [selectWinners, dif_pos h] at hx
        rcases List.mem_cons.mp hx with h0 | h0
        · rw [h0]
          exact l.get_mem _ _
        · have hperm := get_cons_eraseIdx_perm l
            ⟨seed.headD 0 % l.length, Nat.mod_lt _ h⟩
          exact hperm.subset (List.mem_cons_of_mem _ (ih _ _ _ h0))
      · simp only [selectWinners, dif_neg h] at hx
        exact absurd hx (by simp)

theorem assignPrize_eq_selectWinners (activityId : String) (now : Nat)
    (prizeName : String) :
    ∀ (k : Nat) (avail : List RaffleParticipant) (seed : List Nat),
    (assignPrize activityId now prizeName k avail seed).1.map (fun w => w.userId)
      = (selectWinners avail k seed).map (fun p => p.userId) ∧
    (assignPrize activityId now prizeName k avail seed).2
      = selectRest avail k seed := by
  intro k
  induction k with
  | zero => intro avail seed; exact ⟨rfl, rfl⟩
  | succ k ih =>
      intro avail seed
      by_cases h : 0 < avail.length
      · obtain ⟨ih1, ih2⟩ := ih (avail.eraseIdx (seed.headD 0 % avail.length))
          seed.tail
        constructor
        · simp only [assignPrize, selectWinners, dif_pos h, List.map_cons]
          rw [ih1]
        · simp only [assignPrize, selectRest, dif_pos h]
          exact ih2
      · constructor
        · simp [assignPrize, selectWinners, h]
        · simp [assignPrize, selectRest, h]

theorem selectWinners_add {α : Type} (b : Nat) :
    ∀ (a : Nat) (l : List α) (seed : List Nat),
    selectWinners l (a + b) seed
      = selectWinners l a seed ++
        selectWinners (selectRest l a seed).1 b (selectRest l a seed).2 := by
  intro a
  induction a with
  | zero =>
      intro l seed
      simp [selectWinners, selectRest]
  | succ a ih =>
      intro l seed
      by_cases h : 0 < l.length
      · have hadd : a + 1 + b = (a + b) + 1 := by omega
        rw [hadd]
        simp only [selectWinners, selectRest, dif_pos h, List.cons_append]
        rw [ih]
      · obtain rfl : l = [] := by
          cases l with
          | nil => rfl
          | cons x xs => simp at h
        have hadd : a + 1 + b = (a + b) + 1 := by omega
        rw [hadd]
        simp [selectWinners, selectRest, selectWinners_nil]

theorem allocWinners_eq_selectWinners (activityId : String) (now : Nat) :
    ∀ (prizes : List RafflePrize) (parts : List RaffleParticipant)
      (seed : List Nat),
    (allocWinners activityId now prizes parts seed).1.map (fun w => w.userId)
      = (selectWinners parts (sumCounts prizes) seed).map (fun p => p.userId) := by
  intro prizes
  induction prizes with
  | nil =>
      intro parts seed
      simp [allocWinners, sumCounts, selectWinners]
  | cons pr rest ih =>
      intro parts seed
      obtain ⟨h1, h2⟩ :=
        assignPrize_eq_selectWinners activityId now pr.name pr.count parts seed
      have hsum : sumCounts (pr :: rest) = pr.count + sumCounts rest := by
        simp [sumCounts]
      rw [hsum, selectWinners_add]
      simp only [allocWinners, List.map_append]
      rw [h1, ih, h2]

theorem seedSpace_succ (n m : Nat) (h : n ≠ 0) :
    seedSpace n (m + 1) = (Finset.range n).biUnion
      (fun r => (seedSpace (n - 1) m).image (fun s => r :: s)) := by
  conv_lhs => rw [seedSpace]
  rw [if_neg h]

theorem cons_injective_seed (r : Nat) :
    Function.Injective (fun s : List Nat => r :: s) := by
  intro s1 s2 h
  simpa using h

theorem seedSpace_image_disjoint (n m : Nat) :
    ∀ x ∈ Finset.range n, ∀ y ∈ Finset.range n, x ≠ y →
    Disjoint ((seedSpace (n - 1) m).image (fun s => x :: s))
      ((seedSpace (n - 1) m).image (fun s => y :: s)) := by
  intro x _ y _ hxy
  refine Finset.disjoint_left.mpr ?_
  intro s hs1 hs2
  obtain ⟨s1, _, h1⟩ := Finset.mem_image.mp hs1
  obtain ⟨s2, _, h2⟩ := Finset.mem_image.mp hs2
  rw [← h1] at h2
  injection h2 with hh _
  exact hxy hh.symm

theorem card_seedSpace_succ (n m : Nat) (h : n ≠ 0) :
    (seedSpace n (m + 1)).card = n * (seedSpace (n - 1) m).card := by
  rw [seedSpace_succ n m h, Finset.card_biUnion (seedSpace_image_disjoint n m)]
  have hc : ∀ r ∈ Finset.range n,
      ((seedSpace (n - 1) m).image (fun s => r :: s)).card
        = (seedSpace (n - 1) m).card := by
    intro r _
    exact Finset.card_image_of_injective _ (cons_injective_seed r)
  rw [Finset.sum_congr rfl hc, Finset.sum_const, Finset.card_range, smul_eq_mul]

theorem selectWinners_cons_seed {α : Type} (l : List α) (h : 0 < l.length)
    (m r : Nat) (s : List Nat) :
    selectWinners l (m + 1) (r :: s)
      = l.get ⟨r % l.length, Nat.mod_lt _ h⟩ ::
        selectWinners (l.eraseIdx (r % l.length)) m s := by
  simp only [selectWinners, dif_pos h]
  rfl

/-- Uniformity of the repeated random-splice selection: over the canonical
seed space, the number of seeds for which a fixed element `x` of a
duplicate-free pool ends up among the `m` selected, multiplied by the pool
size, equals `min m poolsize` times the total number of seeds — i.e. the
selection probability of every pool element is `min m n / n`. -/
theorem selectWinners_uniform {α : Type} [DecidableEq α] :
    ∀ (m : Nat) (l : List α) (x : α), l.Nodup → x ∈ l →
    ((seedSpace l.length m).filter (fun s => x ∈ selectWinners l m s)).card
        * l.length
      = min m l.length * (seedSpace l.length m).card := by
  intro m
  induction m with
  | zero =>
      intro l x hnd hx
      have hempty : (seedSpace l.length 0).filter
          (fun s => x ∈ selectWinners l 0 s) = ∅ :=
        Finset.filter_false_of_mem (fun s _ => by simp [selectWinners])
      rw [hempty]
      simp
  | succ m ih =>
      intro l x hnd hx
      have hlen : 0 < l.length := List.length_pos.mpr (List.ne_nil_of_mem hx)
      have hne : l.length ≠ 0 := by omega
      obtain ⟨i0, hi0⟩ := List.mem_iff_get.mp hx
      have hdisj : ∀ a ∈ Finset.range l.length, ∀ b ∈ Finset.range l.length,
          a ≠ b →
          Disjoint (((seedSpace (l.length - 1) m).image
              (fun s => a :: s)).filter
              (fun s => x ∈ selectWinners l (m + 1) s))
            (((seedSpace (l.length - 1) m).image
              (fun s => b :: s)).filter
              (fun s => x ∈ selectWinners l (m + 1) s)) := by
        intro a ha b hb hab
        exact Finset.disjoint_filter_filter
          (seedSpace_image_disjoint l.length m a ha b hb hab)
      have hsum : ((seedSpace l.length (m + 1)).filter
          (fun s => x ∈ selectWinners l (m + 1) s)).card
          = ∑ r ∈ Finset.range l.length,
            ((seedSpace (l.length - 1) m).filter
              (fun s => x ∈ selectWinners l (m + 1) (r :: s))).card := by
        rw [seedSpace_succ _ _ hne, Finset.filter_biUnion,
          Finset.card_biUnion hdisj]
        apply Finset.sum_congr rfl
        intro r _
        rw [Finset.filter_image,
          Finset.card_image_of_injective _ (cons_injective_seed r)]
      have hpt : ∀ (r : Nat) (hr : r < l.length) (s : List Nat),
          (x ∈ selectWinners l (m + 1) (r :: s)) ↔
          (x = l.get ⟨r, hr⟩ ∨ x ∈ selectWinners (l.eraseIdx r) m s) := by
        intro r hr s
        have hmod : r % l.length = r := Nat.mod_eq_of_lt hr
        rw [selectWinners_cons_seed l hlen m r s]
        have hidx : (⟨r % l.length, Nat.mod_lt _ hlen⟩ : Fin l.length)
            = ⟨r, hr⟩ := Fin.ext hmod
        rw [hidx, hmod]
        exact List.mem_cons
      have hc0 : ((seedSpace (l.length - 1) m).filter
          (fun s => x ∈ selectWinners l (m + 1) (i0.1 :: s))).card
          = (seedSpace (l.length - 1) m).card := by
        have : (seedSpace (l.length - 1) m).filter
            (fun s => x ∈ selectWinners l (m + 1) (i0.1 :: s))
            = seedSpace (l.length - 1) m := by
          apply Finset.filter_true_of_mem
          intro s _
          rw [hpt i0.1 i0.2 s]
          left
          have : (⟨i0.1, i0.2⟩ : Fin l.length) = i0 := Fin.ext rfl
          rw [this, hi0]
        rw [this]
      have hcr : ∀ (r : Nat) (hr : r < l.length), r ≠ i0.1 →
          ((seedSpace (l.length - 1) m).filter
            (fun s => x ∈ selectWinners l (m + 1) (r :: s))).card
              * (l.length - 1)
            = min m (l.length - 1) * (seedSpace (l.length - 1) m).card := by
        intro r hr hri
        have hget : l.get ⟨r, hr⟩ ≠ x := by
          intro hgx
          have : l.get ⟨r, hr⟩ = l.get i0 := by rw [hgx, hi0]
          have := (hnd.get_inj_iff).mp this
          exact hri (congrArg Fin.val this)
        have hperm := get_cons_eraseIdx_perm l ⟨r, hr⟩
        have hnd' : (l.eraseIdx r).Nodup := (hperm.symm.nodup hnd).of_cons
        have hx' : x ∈ l.eraseIdx r := by
          have hmem2 := hperm.mem_iff.mpr hx
          rcases List.mem_cons.mp hmem2 with h0 | h0
          · exact absurd h0.symm hget
          · exact h0
        have hlen' : (l.eraseIdx r).length = l.length - 1 :=
          length_eraseIdx_of_lt l r hr
        have hfe : (seedSpace (l.length - 1) m).filter
            (fun s => x ∈ selectWinners l (m + 1) (r :: s))
            = (seedSpace (l.length - 1) m).filter
              (fun s => x ∈ selectWinners (l.eraseIdx r) m s) := by
          apply Finset.filter_congr
          intro s _
          rw [hpt r hr s]
          constructor
          · intro hor
            rcases hor with h0 | h0
            · exact absurd h0.symm hget
            · exact h0
          · intro h0
            right
            exact h0
        rw [hfe]
        have := ih (l.eraseIdx r) x hnd' hx'
        rw [hlen'] at this
        exact this
      -- algebra
      rw [hsum, card_seedSpace_succ _ _ hne]
      have hi0mem : i0.1 ∈ Finset.range l.length := Finset.mem_range.mpr i0.2
      rw [← Finset.add_sum_erase _ _ hi0mem, hc0]
      set T := (seedSpace (l.length - 1) m).card with hT
      set E := ∑ r ∈ (Finset.range l.length).erase i0.1,
        ((seedSpace (l.length - 1) m).filter
          (fun s => x ∈ selectWinners l (m + 1) (r :: s))).card with hE
      have hEeq : E * (l.length - 1)
          = (l.length - 1) * (min m (l.length - 1) * T) := by
        rw [hE, Finset.sum_mul]
        have : ∀ r ∈ (Finset.range l.length).erase i0.1,
            ((seedSpace (l.length - 1) m).filter
              (fun s => x ∈ selectWinners l (m + 1) (r :: s))).card
                * (l.length - 1)
              = min m (l.length - 1) * T := by
          intro r hrmem
          have hr : r < l.length :=
            Finset.mem_range.mp (Finset.mem_of_mem_erase hrmem)
          have hri : r ≠ i0.1 := Finset.ne_of_mem_erase hrmem
          exact hcr r hr hri
        rw [Finset.sum_congr rfl this, Finset.sum_const,
          Finset.card_erase_of_mem hi0mem, Finset.card_range, smul_eq_mul]
      have hminsucc : min (m + 1) l.length = min m (l.length - 1) + 1 := by
        omega
      rcases Nat.lt_or_ge l.length 2 with hsmall | hbig
      · have hn1 : l.length = 1 := by omega
        have hE0 : E = 0 := by
          rw [hE]
          have herase : (Finset.range l.length).erase i0.1 = ∅ := by
            apply Finset.eq_empty_iff_forall_not_mem.mpr
            intro r hr
            have h1 : r ≠ i0.1 := Finset.ne_of_mem_erase hr
            have h2 : r < l.length := Finset.mem_range.mp
              (Finset.mem_of_mem_erase hr)
            have h3 : i0.1 < l.length := i0.2
            omega
          rw [herase, Finset.sum_empty]
        rw [hE0, hminsucc, hn1]
        simp
      · apply Nat.eq_of_mul_eq_mul_left (show 0 < l.length - 1 by omega)
        have expand : (l.length - 1) * ((T + E) * l.length)
            = l.length * (T * (l.length - 1) + E * (l.length - 1)) := by ring
        rw [expand, hEeq]
        rw [hminsucc]
        ring
/-- Claim C9: the allocator's repeated random-index selection is unbiased.
For a fixed prize list of total count `T` and a fixed participant list of
size `n` with distinct user ids, counting over the uniform seed space,
the fraction of draws in which a given participant appears in the winner
list is exactly `min T n / n` (stated multiplicatively over the finite
seed space, with each `Math.random()` pick uniform over the remaining
pool). -/
theorem allocator_fairness (activityId : String) (now : Nat)
    (prizes : List RafflePrize) (parts : List RaffleParticipant)
    (x : RaffleParticipant)
    (hnd : (parts.map (fun p => p.userId)).Nodup) (hx : x ∈ parts) :
    ((seedSpace parts.length (sumCounts prizes)).filter
        (fun s => x.userId ∈
          (allocWinners activityId now prizes parts s).1.map
            (fun w => w.userId))).card * parts.length
      = min (sumCounts prizes) parts.length *
        (seedSpace parts.length (sumCounts prizes)).card := by
  have hndl : parts.Nodup := List.Nodup.of_map _ hnd
  have hiff : ∀ s : List Nat,
      (x.userId ∈ (allocWinners activityId now prizes parts s).1.map
        (fun w => w.userId)) ↔
      x ∈ selectWinners parts (sumCounts prizes) s := by
    intro s
    rw [allocWinners_eq_selectWinners]
    constructor
    · intro hmem
      obtain ⟨p, hp, hpu⟩ := List.mem_map.mp hmem
      have hpl : p ∈ parts := selectWinners_mem _ _ _ _ hp
      have hpx : p = x := List.inj_on_of_nodup_map hnd hpl hx hpu
      rw [← hpx]
      exact hp
    · intro hmem
      exact List.mem_map_of_mem _ hmem
  have hfe : (seedSpace parts.length (sumCounts prizes)).filter
      (fun s => x.userId ∈
        (allocWinners activityId now prizes parts s).1.map
          (fun w => w.userId))
      = (seedSpace parts.length (sumCounts prizes)).filter
        (fun s => x ∈ selectWinners parts (sumCounts prizes) s) :=
    Finset.filter_congr (fun s _ => hiff s)
  rw [hfe]
  exact selectWinners_uniform (sumCounts prizes) parts x hndl hx

def exPA : RaffleParticipant := ⟨"a1", "uA", "A", 0⟩

theorem allocator_fairness_witness :
    ((seedSpace exParts.length (sumCounts exPrizes)).filter
        (fun s => exPA.userId ∈
          (allocWinners "a1" 7 exPrizes exParts s).1.map
            (fun w => w.userId))).card * exParts.length
      = min (sumCounts exPrizes) exParts.length *
        (seedSpace exParts.length (sumCounts exPrizes)).card :=
  allocator_fairness "a1" 7 exPrizes exParts exPA (by decide) (by decide)

end LuckyDraw
